import Mathlib

/-!
# Capacity search of the presence-service load tester

A shallow embedding of `load-test/load_tester.go`: the population generator
(`generateUsers`), the capacity search (`findMaxUsers`), one timed run
(`runLoadTest`) and the metrics aggregation (`calculateMetrics`), followed by
the properties proved about them.

Conventions of the embedding.

* Go `int`, `int64` and `time.Duration` (nanoseconds) are `Int`.  The running
  latency total of `calculateMetrics` and the channel capacity of
  `runLoadTest` are reduced with `wrap64`, because they can leave the signed
  64-bit range.  Counters and the search bounds are not reduced: they are
  bounded by the length of a slice or of a channel buffer, and
  `minUsers + maxUsers + 1` is at most twice such a length plus one.
* Go `/` on integers truncates towards zero: `Int.tdiv`.
* `float64` values are the type `F64`: a rational, an infinity or NaN, with
  every operation rounded to the nearest binary64 value, ties to even.
  Signed zeros are not distinguished (no divisor of the program can be `-0`).
* A function that can panic returns the panic in place of its result.
* `make` panics on a length or capacity above what the runtime grants.  That
  limit is a parameter, `memLimit`; `maxAlloc` is its value on a 64-bit
  platform.  Whether the machine has the memory asked for is not modelled.
* `runLoadTest` talks to the network from concurrently running workers.  The
  search takes the run as a parameter, a state-passing function returning a
  `Metrics`, so that its properties hold for every behaviour of the service.
  The model of one run fixes the pacing (the k-th tick fires exactly
  `k` intervals after the start) and takes the outcome of the request of its
  k-th worker from a function; the order in which outcomes reach the channels
  does not matter to what `calculateMetrics` computes from them.
-/

namespace LoadTester

/-! ## binary64 arithmetic -/

/-- A `float64` value: a finite rational, an infinity, or NaN. -/
inductive F64 where
  | finite (q : ℚ)
  | posInf
  | negInf
  | nan
deriving DecidableEq

/-- Nearest integer to a rational, a tie going to the even neighbour. -/
def roundHalfEven (m : ℚ) : Int :=
  let f := ⌊m⌋
  let r := m - f
  if r < 1 / 2 then f
  else if 1 / 2 < r then f + 1
  else if f % 2 = 0 then f else f + 1

/-- Rounding of an exact value to binary64: 53 significant bits, exponent of
the leading bit at least `-1022` (below that the spacing stays `2^-1074`),
overflow to an infinity from `2^1024` on. -/
def F64.round (x : ℚ) : F64 :=
  if x = 0 then .finite 0 else
  let e := max (Int.log 2 |x|) (-1022)
  let ulp : ℚ := (2 : ℚ) ^ (e - 52)
  let r : ℚ := roundHalfEven (|x| / ulp) * ulp
  if (2 : ℚ) ^ (1024 : ℤ) ≤ r then (if 0 < x then .posInf else .negInf)
  else .finite (if 0 < x then r else -r)

/-- Conversion `float64(n)` of an integer. -/
def F64.ofInt (n : Int) : F64 := F64.round n

/-- Quotient `a / b` of two `float64` values. -/
def F64.div : F64 → F64 → F64
  | .nan, _ => .nan
  | _, .nan => .nan
  | .finite a, .finite b =>
    if b = 0 then (if a = 0 then .nan else if 0 < a then .posInf else .negInf)
    else F64.round (a / b)
  | .finite _, .posInf => .finite 0
  | .finite _, .negInf => .finite 0
  | .posInf, .finite b => if 0 ≤ b then .posInf else .negInf
  | .negInf, .finite b => if 0 ≤ b then .negInf else .posInf
  | .posInf, .posInf => .nan
  | .posInf, .negInf => .nan
  | .negInf, .posInf => .nan
  | .negInf, .negInf => .nan

/-- Sum `a + b` of two `float64` values. -/
def F64.add : F64 → F64 → F64
  | .nan, _ => .nan
  | _, .nan => .nan
  | .finite a, .finite b => F64.round (a + b)
  | .finite _, .posInf => .posInf
  | .finite _, .negInf => .negInf
  | .posInf, .finite _ => .posInf
  | .negInf, .finite _ => .negInf
  | .posInf, .posInf => .posInf
  | .negInf, .negInf => .negInf
  | .posInf, .negInf => .nan
  | .negInf, .posInf => .nan

/-- Comparison `a > b` of two `float64` values; false as soon as one is NaN. -/
def F64.gt : F64 → F64 → Bool
  | .nan, _ => false
  | _, .nan => false
  | .finite a, .finite b => decide (b < a)
  | .finite _, .posInf => false
  | .finite _, .negInf => true
  | .posInf, .posInf => false
  | .posInf, _ => true
  | .negInf, _ => false

/-- Conversion `int(f)`: the fraction is discarded.  The result is defined by
the language only when the value fits the integer type. -/
def F64.toInt? : F64 → Option Int
  | .finite q =>
    let t : Int := if 0 ≤ q then ⌊q⌋ else ⌈q⌉
    if -2 ^ 63 ≤ t ∧ t < 2 ^ 63 then some t else none
  | _ => none

/-- Reduction of an integer to the signed 64-bit range (two's complement). -/
def wrap64 (x : Int) : Int := (x + 2 ^ 63) % 2 ^ 64 - 2 ^ 63

/-! ## Constants -/

/-- Nanoseconds in `time.Millisecond`. -/
def millisecond : Int := 1000000
/-- Nanoseconds in `time.Second`. -/
def second : Int := 1000000000

def baseURL : String := "http://localhost:8080"
def numUsers : Int := 10000
def statusBatchSize : Int := 50
def heartbeatPercent : Int := 80
def maxConcurrency : Int := 1000
def testDuration : Int := 5 * second
/-- The untyped constant `0.01` (exact; rounded where it meets a `float64`). -/
def errorThreshold : ℚ := 1 / 100
def latencyThreshold : Int := 100 * millisecond

/-- The method `Duration.Seconds` of package `time`:
`float64(d / Second) + float64(d % Second) / 1e9`. -/
def durationSeconds (d : Int) : F64 :=
  F64.add (F64.ofInt (d.tdiv second)) (F64.div (F64.ofInt (d.tmod second)) (F64.round 1000000000))

/-- The expression `int(testDuration.Seconds())`. -/
def testDurationSeconds : Int := ((durationSeconds testDuration).toInt?).getD 0

/-! ## Data model -/

structure Metrics where
  TotalRequests : Int
  SuccessfulCalls : Int
  FailedCalls : Int
  TotalDuration : Int
  AverageDuration : Int
  MinDuration : Int
  MaxDuration : Int
  RequestsPerSec : F64
deriving DecidableEq

/-- The zero value of `Metrics` (`var metrics Metrics`). -/
def Metrics.zero : Metrics := ⟨0, 0, 0, 0, 0, 0, 0, .finite 0⟩

/-- Run-time panics the modelled functions can raise. -/
inductive Panic where
  | makesliceLenOutOfRange
  | makechanSizeOutOfRange
  | integerDivideByZero
  | nonPositiveTickerInterval
  | intnInvalidArgument
deriving DecidableEq

/-! ## `generateUsers` -/

/-- Decimal rendering of a natural number, most significant digit first. -/
def decimalDigits (n : Nat) : List Char :=
  if n = 0 then [Char.ofNat 48] else ((Nat.digits 10 n).reverse.map Nat.digitChar)

/-- The verb `%d` of `fmt.Sprintf`. -/
def formatInt (i : Int) : String :=
  if i < 0 then "-" ++ String.mk (decimalDigits i.natAbs) else String.mk (decimalDigits i.natAbs)

/-- The call `fmt.Sprintf("user%d", k)`. -/
def sprintfUser (k : Int) : String := "user" ++ formatInt k

/-- The loop `for i := 0; i < n; i++ { users[i] = fmt.Sprintf("user%d", i+1) }`
run on a slice `users`. -/
def generateUsersLoop (n : Nat) (users : List String) : List String :=
  (List.range n).foldl (fun us i => us.set i (sprintfUser ((i : Int) + 1))) users

/-- The largest allocation the Go runtime grants on a 64-bit platform
(`maxAlloc`, 2^48 bytes); `make` panics on a request above it. -/
def maxAlloc : Int := 2 ^ 48

/-- The check of `make([]T, len)`: the length is not negative and the `len`
elements of `elemSize` bytes are within `memLimit`, the largest allocation
the runtime grants. -/
def makesliceOk (memLimit elemSize len : Int) : Bool :=
  decide (0 ≤ len) && decide (elemSize * len ≤ memLimit)

/-- Model of `generateUsers`: `make([]string, n)` (a string header takes 16
bytes) panics on a negative length and on a length above what the runtime
grants, `memLimit`; otherwise the slice of `n` empty strings is filled in
index order.  Whether the machine has that much memory is not modelled. -/
def generateUsers (memLimit : Int) (n : Int) : Except Panic (List String) :=
  if !makesliceOk memLimit 16 n then .error .makesliceLenOutOfRange
  else .ok (generateUsersLoop n.toNat (List.replicate n.toNat ""))

/-! ## `calculateMetrics` -/

/-- Loop state of `calculateMetrics`: the metrics under construction and the
local `totalLatency`. -/
structure MetricsAcc where
  metrics : Metrics
  totalLatency : Int

/-- One iteration of `for duration := range results`. -/
def recordSuccess (acc : MetricsAcc) (duration : Int) : MetricsAcc :=
  let m := acc.metrics
  let m := { m with SuccessfulCalls := m.SuccessfulCalls + 1 }
  let totalLatency := wrap64 (acc.totalLatency + duration)
  let m := if duration < m.MinDuration then { m with MinDuration := duration } else m
  let m := if duration > m.MaxDuration then { m with MaxDuration := duration } else m
  ⟨m, totalLatency⟩

/-- Model of `calculateMetrics`.  `results` is the content of the closed
results channel, `errors` the content of the closed errors channel (the code
reads only its length), `totalDuration` the elapsed time of the run. -/
def calculateMetrics (results : List Int) (errors : List String) (totalDuration : Int) :
    Metrics :=
  let init : MetricsAcc := ⟨{ Metrics.zero with MinDuration := 2 ^ 63 - 1 }, 0⟩
  let acc := results.foldl recordSuccess init
  let m := acc.metrics
  let m := { m with FailedCalls := (errors.length : Int) }
  let m := { m with TotalRequests := m.SuccessfulCalls + m.FailedCalls }
  let m := { m with TotalDuration := totalDuration }
  let m := if m.SuccessfulCalls > 0 then
      { m with AverageDuration := acc.totalLatency.tdiv m.SuccessfulCalls } else m
  { m with RequestsPerSec := F64.div (F64.ofInt m.TotalRequests) (durationSeconds totalDuration) }

/-! ## `findMaxUsers` -/

/-- The test `errorRate > errorThreshold || metrics.AverageDuration > latencyThreshold`
of `findMaxUsers`, with `errorRate := float64(FailedCalls) / float64(TotalRequests)`. -/
def exceedsThresholds (metrics : Metrics) : Bool :=
  let errorRate := F64.div (F64.ofInt metrics.FailedCalls) (F64.ofInt metrics.TotalRequests)
  F64.gt errorRate (F64.round errorThreshold) || decide (metrics.AverageDuration > latencyThreshold)

/-- The variables of the search loop, and the state `world` of whatever the
runs act on. -/
structure SearchState (σ : Type) where
  minUsers : Int
  maxUsers : Int
  world : σ

/-- The candidate `testUsers := (minUsers + maxUsers + 1) / 2`. -/
def testUsers {σ : Type} (s : SearchState σ) : Int := (s.minUsers + s.maxUsers + 1).tdiv 2

/-- The body of the loop of `findMaxUsers`: one run at the candidate size and
the update of one bound.  `run` stands for `runLoadTest`. -/
def searchStep {σ : Type} (run : List String → Int → σ → Metrics × σ) (users : List String)
    (s : SearchState σ) : SearchState σ :=
  let r := run users (testUsers s) s.world
  if exceedsThresholds r.1 then { minUsers := s.minUsers, maxUsers := testUsers s - 1, world := r.2 }
  else { minUsers := testUsers s, maxUsers := s.maxUsers, world := r.2 }

/-- The outcome of the loop: the state on exit and the states at which the
guard `minUsers < maxUsers` held, one per iteration, in order. -/
structure SearchRun (σ : Type) where
  final : SearchState σ
  visited : List (SearchState σ)

/-- The loop `for minUsers < maxUsers { ... }`. -/
def searchLoop {σ : Type} (run : List String → Int → σ → Metrics × σ) (users : List String)
    (s : SearchState σ) : SearchRun σ :=
  if h : s.minUsers < s.maxUsers then
    let r := searchLoop run users (searchStep run users s)
    ⟨r.final, s :: r.visited⟩
  else ⟨s, []⟩
termination_by (s.maxUsers - s.minUsers).toNat
decreasing_by
  have hd : (s.minUsers + s.maxUsers + 1).tdiv 2 = (s.minUsers + s.maxUsers + 1) / 2 ∨
      (s.minUsers + s.maxUsers + 1).tdiv 2 = -((-(s.minUsers + s.maxUsers + 1)) / 2) := by
    rcases le_or_lt 0 (s.minUsers + s.maxUsers + 1) with h0 | h0
    · exact Or.inl (Int.tdiv_eq_ediv h0 (by norm_num))
    · right
      rw [← Int.tdiv_eq_ediv (by omega) (by norm_num), Int.neg_tdiv, neg_neg]
  unfold searchStep testUsers
  simp only
  split <;> simp only <;> omega

/-- The state in which the loop is entered: `minUsers, maxUsers := 100, len(users)`. -/
def initialState {σ : Type} (users : List String) (w : σ) : SearchState σ :=
  { minUsers := 100, maxUsers := (users.length : Int), world := w }

/-- Model of `findMaxUsers`: the value of `minUsers` on exit of the loop. -/
def findMaxUsers {σ : Type} (run : List String → Int → σ → Metrics × σ) (users : List String)
    (w : σ) : Int :=
  (searchLoop run users (initialState users w)).final.minUsers

/-! ## `runLoadTest` -/

/-- What stops a run short of returning. -/
inductive Abort where
  | panic (p : Panic)
  | deadlock
deriving DecidableEq

/-- The check of `make(chan T, size)`: the size is not negative and the buffer
of `size` elements of `elemSize` bytes is within `memLimit`, the largest
buffer the runtime grants. -/
def makechanOk (memLimit elemSize size : Int) : Bool :=
  decide (0 ≤ size) && decide (elemSize * size ≤ memLimit)

/-- The dispatch loop `for time.Since(start) < testDuration { <-ticker.C; go ... }`
under ideal pacing: the k-th tick fires `k * interval` after `start` and the
guard is evaluated at that very instant.  `ticks` is the number of ticks
received so far; the result is the number of workers spawned on exit. -/
def dispatchLoop (interval : Int) : Nat → Int → Int
  | 0, ticks => ticks
  | fuel + 1, ticks =>
    if ticks * interval < testDuration then dispatchLoop interval fuel (ticks + 1) else ticks

/-- Number of workers spawned by one run.  With an interval of at least one
nanosecond the guard fails after at most `testDuration` ticks, so that much
fuel lets the loop reach its exit. -/
def dispatchCount (interval : Int) : Int := dispatchLoop interval testDuration.toNat 0

/-- What one call of `runLoadTest` did: the intervals of the tickers it
created, the number of workers it spawned, and how it ended. -/
structure LoadRun where
  tickers : List Int
  spawned : Int
  outcome : Except Abort Metrics

/-- The latency of a worker whose request succeeded. -/
def latencyOf : Except String Int → Option Int
  | .ok d => some d
  | .error _ => none

/-- The error of a worker whose request failed. -/
def failureOf : Except String Int → Option String
  | .ok _ => none
  | .error e => some e

/-- Model of `runLoadTest` under ideal pacing.  `memLimit` bounds channel
buffers, `sut k` is what the request of the k-th worker returns (a latency or
an error) and `elapsed` is `time.Since(start)` once every worker is done.

The two outcome channels get the capacity `targetRPS * int(testDuration.Seconds())`
(elements of 8 and 16 bytes), the semaphore `maxConcurrency` (elements of no
size); `time.Second / time.Duration(targetRPS)` panics on a zero divisor and
`time.NewTicker` on an interval that is not positive.  Every worker indexes
`users` with `rand.Intn(len(users))`, which panics on an empty slice, so the
first worker spawned brings the program down.  A
worker sends its outcome into a channel nobody reads before `wg.Wait()`
returns, so the run blocks for ever as soon as one channel is offered more
than its capacity. -/
def runLoadTest (memLimit : Int) (sut : Nat → Except String Int) (elapsed : Int)
    (users : List String) (targetRPS : Int) : LoadRun :=
  let capacity := wrap64 (targetRPS * testDurationSeconds)
  if !makechanOk memLimit 8 capacity then ⟨[], 0, .error (.panic .makechanSizeOutOfRange)⟩
  else if !makechanOk memLimit 16 capacity then ⟨[], 0, .error (.panic .makechanSizeOutOfRange)⟩
  else if !makechanOk memLimit 0 maxConcurrency then
    ⟨[], 0, .error (.panic .makechanSizeOutOfRange)⟩
  else if targetRPS = 0 then ⟨[], 0, .error (.panic .integerDivideByZero)⟩
  else
    let interval := second.tdiv targetRPS
    if interval ≤ 0 then ⟨[], 0, .error (.panic .nonPositiveTickerInterval)⟩
    else
      let spawned := dispatchCount interval
      if users.length = 0 then ⟨[interval], 1, .error (.panic .intnInvalidArgument)⟩
      else
        let outcomes := (List.range spawned.toNat).map sut
        let results := outcomes.filterMap latencyOf
        let errors := outcomes.filterMap failureOf
        if capacity < results.length ∨ capacity < errors.length then
          ⟨[interval], spawned, .error .deadlock⟩
        else ⟨[interval], spawned, .ok (calculateMetrics results errors elapsed)⟩

/-! ## Stand-ins for the system under test -/

/-- What a run reports when all of its 100 requests succeeded in 5 ms. -/
def passingMetrics : Metrics := ⟨100, 100, 0, 5000000000, 5000000, 5000000, 5000000, .finite 20⟩

/-- What a run reports when all of its 100 requests failed. -/
def failingMetrics : Metrics := ⟨100, 0, 100, 5000000000, 0, 2 ^ 63 - 1, 0, .finite 20⟩

/-- A run against a service that fails every request once the load exceeds
`limit` and answers in 5 ms otherwise. -/
def sutFailsAbove (limit : Int) (_users : List String) (load : Int) (w : Unit) : Metrics × Unit :=
  (if load ≤ limit then passingMetrics else failingMetrics, w)

/-- A run reporting `10^16 - 1` requests of which `10^14` failed. -/
def sutHugeCounts (_users : List String) (_load : Int) (w : Unit) : Metrics × Unit :=
  (⟨9999999999999999, 9899999999999999, 100000000000000, 5000000000, 0, 0, 0, .finite 0⟩, w)

/-! ## The pass criterion in the words of the specification -/

/-- A candidate passes when the failure rate is at most 1% and the average
latency at most 100 ms, both taken exactly. -/
def withinBudget (m : Metrics) : Prop :=
  (m.FailedCalls : ℚ) / (m.TotalRequests : ℚ) ≤ 1 / 100 ∧ m.AverageDuration ≤ 100000000

instance (m : Metrics) : Decidable (withinBudget m) := by
  unfold withinBudget
  infer_instance

/-! ## Auxiliary definitions of the proofs -/

/-- The magnitude `F64.round` gives a positive `x` before the overflow test. -/
def roundedMagnitude (x : ℚ) : ℚ :=
  roundHalfEven (x / (2 : ℚ) ^ (max (Int.log 2 x) (-1022) - 52))
    * (2 : ℚ) ^ (max (Int.log 2 x) (-1022) - 52)

/-- The value is `+Inf` or a finite number not below `b`. -/
def F64.atLeast (r : F64) (b : ℚ) : Prop := r = .posInf ∨ ∃ y, r = .finite y ∧ b ≤ y

/-- The value is `-Inf` or a finite number not above `b`. -/
def F64.atMost (r : F64) (b : ℚ) : Prop := r = .negInf ∨ ∃ y, r = .finite y ∧ y ≤ b

/-- The accumulator `calculateMetrics` starts its loop from. -/
def initAcc : MetricsAcc := ⟨{ Metrics.zero with MinDuration := 2 ^ 63 - 1 }, 0⟩

/-! ## Properties -/

/-! ### binary64 rounding -/

theorem roundHalfEven_cases (m : ℚ) : roundHalfEven m = ⌊m⌋ ∨
    (roundHalfEven m = ⌊m⌋ + 1 ∧ 1 / 2 ≤ m - ⌊m⌋) := by
  unfold roundHalfEven
  simp only
  split_ifs with h1 h2 h3
  · exact Or.inl rfl
  · exact Or.inr ⟨rfl, le_of_lt h2⟩
  · exact Or.inl rfl
  · exact Or.inr ⟨rfl, not_lt.mp h1⟩

theorem le_roundHalfEven (m : ℚ) (k : Int) (h : (k : ℚ) ≤ m) : k ≤ roundHalfEven m := by
  have hf : k ≤ ⌊m⌋ := Int.le_floor.mpr h
  rcases roundHalfEven_cases m with h1 | ⟨h1, _⟩ <;> omega

theorem roundHalfEven_le (m : ℚ) (k : Int) (h : m ≤ (k : ℚ)) : roundHalfEven m ≤ k := by
  have hf : ⌊m⌋ ≤ k := Int.cast_le.mp (le_trans (Int.floor_le m) h)
  rcases roundHalfEven_cases m with h1 | ⟨h1, h2⟩
  · omega
  · have hne : ⌊m⌋ ≠ k := by
      intro heq
      rw [heq] at h2
      linarith
    omega

theorem roundHalfEven_eq_of_near (m : ℚ) (k : ℤ) (h1 : (k : ℚ) - 1 / 2 < m)
    (h2 : m < (k : ℚ) + 1 / 2) : roundHalfEven m = k := by
  have hk1 : k ≤ roundHalfEven m ∨ roundHalfEven m = k - 1 ∨ roundHalfEven m < k - 1 := by omega
  have hfl : (⌊m⌋ : ℚ) ≤ m := Int.floor_le m
  have hfl2 : m < (⌊m⌋ : ℚ) + 1 := Int.lt_floor_add_one m
  have hf1 : k - 1 ≤ ⌊m⌋ := by
    have : ((k - 1 : ℤ) : ℚ) < (⌊m⌋ : ℚ) + 1 := by push_cast; linarith
    have : k - 1 < ⌊m⌋ + 1 := by exact_mod_cast this
    omega
  have hf2 : ⌊m⌋ ≤ k := by
    have : (⌊m⌋ : ℚ) < ((k + 1 : ℤ) : ℚ) := by push_cast; linarith
    have : ⌊m⌋ < k + 1 := by exact_mod_cast this
    omega
  rcases (by omega : ⌊m⌋ = k ∨ ⌊m⌋ = k - 1) with hf | hf
  · unfold roundHalfEven
    simp only
    rw [if_pos (by rw [hf]; linarith), hf]
  · unfold roundHalfEven
    simp only
    have hr : (1 : ℚ) / 2 < m - (⌊m⌋ : ℚ) := by rw [hf]; push_cast; linarith
    rw [if_neg (by linarith), if_pos hr, hf]
    ring

theorem roundHalfEven_intCast (k : ℤ) : roundHalfEven (k : ℚ) = k :=
  roundHalfEven_eq_of_near _ k (by linarith) (by linarith)

theorem roundHalfEven_half (f : ℤ) :
    roundHalfEven ((f : ℚ) + 1 / 2) = if f % 2 = 0 then f else f + 1 := by
  have hf : ⌊(f : ℚ) + 1 / 2⌋ = f := by
    rw [Int.floor_eq_iff]
    constructor <;> linarith
  unfold roundHalfEven
  simp only [hf]
  rw [if_neg (by linarith), if_neg (by linarith)]

theorem round_zero : F64.round 0 = .finite 0 := by simp [F64.round]

theorem round_of_pos (x : ℚ) (hx : 0 < x) :
    F64.round x = if (2 : ℚ) ^ (1024 : ℤ) ≤ roundedMagnitude x then .posInf
      else .finite (roundedMagnitude x) := by
  unfold F64.round roundedMagnitude
  simp only [abs_of_pos hx, hx, if_true, ne_of_gt hx, if_false]

theorem round_of_neg (x : ℚ) (hx : x < 0) :
    F64.round x = if (2 : ℚ) ^ (1024 : ℤ) ≤ roundedMagnitude (-x) then .negInf
      else .finite (-roundedMagnitude (-x)) := by
  unfold F64.round roundedMagnitude
  simp only [abs_of_neg hx, not_lt.mpr (le_of_lt hx), if_false, ne_of_lt hx]

theorem two_zpow_pos (k : ℤ) : (0 : ℚ) < (2 : ℚ) ^ k := zpow_pos (by norm_num) k

theorem two_zpow_mono {a b : ℤ} (h : a ≤ b) : (2 : ℚ) ^ a ≤ (2 : ℚ) ^ b :=
  zpow_le_zpow_right₀ (by norm_num) h

theorem two_zpow_split (e : ℤ) : (2 : ℚ) ^ e = (2 : ℚ) ^ (52 : ℤ) * (2 : ℚ) ^ (e - 52) := by
  rw [← zpow_add₀ (by norm_num : (2 : ℚ) ≠ 0)]
  congr 1
  ring

theorem two_zpow_succ_split (e : ℤ) :
    (2 : ℚ) ^ (e + 1) = (2 : ℚ) ^ (53 : ℤ) * (2 : ℚ) ^ (e - 52) := by
  rw [← zpow_add₀ (by norm_num : (2 : ℚ) ≠ 0)]
  congr 1
  ring

/-- The exponent `F64.round` works with. -/
theorem exponent_facts (x : ℚ) (hx : 0 < x) :
    x < (2 : ℚ) ^ (max (Int.log 2 x) (-1022) + 1) ∧
    (-1022 ≤ Int.log 2 x → (2 : ℚ) ^ (max (Int.log 2 x) (-1022)) ≤ x) := by
  constructor
  · refine lt_of_lt_of_le (Int.lt_zpow_succ_log_self (by norm_num : 1 < 2) x) ?_
    have : Int.log 2 x + 1 ≤ max (Int.log 2 x) (-1022) + 1 := by omega
    exact_mod_cast two_zpow_mono this
  · intro h
    rw [max_eq_left h]
    exact_mod_cast Int.zpow_log_le_self (by norm_num : 1 < 2) hx

theorem roundedMagnitude_of_binade (x : ℚ) (e : ℤ) (hx : 0 < x) (h1 : (2 : ℚ) ^ e ≤ x)
    (h2 : x < (2 : ℚ) ^ (e + 1)) (he : -1022 ≤ e) :
    roundedMagnitude x = roundHalfEven (x / (2 : ℚ) ^ (e - 52)) * (2 : ℚ) ^ (e - 52) := by
  have hL : Int.log 2 x = e := by
    apply le_antisymm
    · have : Int.log 2 x < e + 1 :=
        (Int.lt_zpow_iff_log_lt (by norm_num : 1 < 2) hx).mp (by exact_mod_cast h2)
      omega
    · exact (Int.zpow_le_iff_le_log (by norm_num : 1 < 2) hx).mp (by exact_mod_cast h1)
  unfold roundedMagnitude
  rw [hL, max_eq_left he]

theorem le_roundedMagnitude (x : ℚ) (hx : 0 < x) (e0 n : ℤ) (hn : 2 ^ 52 ≤ n)
    (hn2 : n ≤ 2 ^ 53) (he0 : -1022 ≤ e0) (hb : (n : ℚ) * (2 : ℚ) ^ (e0 - 52) ≤ x) :
    (n : ℚ) * (2 : ℚ) ^ (e0 - 52) ≤ roundedMagnitude x := by
  have hpow : (2 : ℚ) ^ e0 ≤ x := by
    refine le_trans ?_ hb
    rw [two_zpow_split e0]
    apply mul_le_mul_of_nonneg_right _ (le_of_lt (two_zpow_pos _))
    exact_mod_cast hn
  have hL : e0 ≤ Int.log 2 x :=
    (Int.zpow_le_iff_le_log (by norm_num : 1 < 2) hx).mp (by exact_mod_cast hpow)
  have hLx := (exponent_facts x hx).2 (by omega)
  unfold roundedMagnitude
  rw [max_eq_left (by omega : (-1022 : ℤ) ≤ Int.log 2 x)] at hLx ⊢
  set L := Int.log 2 x
  have hu := two_zpow_pos (L - 52)
  rcases eq_or_lt_of_le hL with heq | hlt
  · rw [← heq] at hu ⊢
    apply mul_le_mul_of_nonneg_right _ (le_of_lt hu)
    have : (n : ℚ) ≤ x / (2 : ℚ) ^ (e0 - 52) := (le_div_iff₀ hu).mpr hb
    exact_mod_cast le_roundHalfEven _ n this
  · have h1 : ((2 ^ 52 : ℤ) : ℚ) ≤ x / (2 : ℚ) ^ (L - 52) := by
      rw [le_div_iff₀ hu]
      have := two_zpow_split L
      norm_num at this ⊢
      linarith
    have h2 := le_roundHalfEven _ _ h1
    have h3 : (n : ℚ) * (2 : ℚ) ^ (e0 - 52) ≤ (2 : ℚ) ^ (e0 + 1) := by
      rw [two_zpow_succ_split e0]
      apply mul_le_mul_of_nonneg_right _ (le_of_lt (two_zpow_pos _))
      exact_mod_cast hn2
    have h4 : (2 : ℚ) ^ (e0 + 1) ≤ (2 : ℚ) ^ L := two_zpow_mono (by omega)
    have h5 : (2 : ℚ) ^ L ≤ (roundHalfEven (x / (2 : ℚ) ^ (L - 52)) : ℚ) * (2 : ℚ) ^ (L - 52) := by
      rw [two_zpow_split L]
      apply mul_le_mul_of_nonneg_right _ (le_of_lt hu)
      exact_mod_cast h2
    linarith

theorem roundedMagnitude_le (x : ℚ) (hx : 0 < x) (e0 n : ℤ) (hn : 2 ^ 52 ≤ n)
    (hn2 : n < 2 ^ 53) (he0 : -1022 ≤ e0) (hb : x ≤ (n : ℚ) * (2 : ℚ) ^ (e0 - 52)) :
    roundedMagnitude x ≤ (n : ℚ) * (2 : ℚ) ^ (e0 - 52) := by
  have hlt : x < (2 : ℚ) ^ (e0 + 1) := by
    refine lt_of_le_of_lt hb ?_
    rw [two_zpow_succ_split e0]
    apply mul_lt_mul_of_pos_right _ (two_zpow_pos _)
    exact_mod_cast hn2
  have hL : Int.log 2 x < e0 + 1 :=
    (Int.lt_zpow_iff_log_lt (by norm_num : 1 < 2) hx).mp (by exact_mod_cast hlt)
  have hxe := (exponent_facts x hx).1
  unfold roundedMagnitude
  set e := max (Int.log 2 x) (-1022)
  have hee : e ≤ e0 := max_le (by omega) he0
  have hu := two_zpow_pos (e - 52)
  rcases eq_or_lt_of_le hee with heq | hlt2
  · rw [heq] at hu ⊢
    apply mul_le_mul_of_nonneg_right _ (le_of_lt hu)
    have : x / (2 : ℚ) ^ (e0 - 52) ≤ (n : ℚ) := (div_le_iff₀ hu).mpr hb
    exact_mod_cast roundHalfEven_le _ n this
  · have h1 : x / (2 : ℚ) ^ (e - 52) ≤ ((2 ^ 53 : ℤ) : ℚ) := by
      rw [div_le_iff₀ hu]
      have := two_zpow_succ_split e
      norm_num at this ⊢
      linarith
    have h2 := roundHalfEven_le _ _ h1
    have h3 : (roundHalfEven (x / (2 : ℚ) ^ (e - 52)) : ℚ) * (2 : ℚ) ^ (e - 52)
        ≤ (2 : ℚ) ^ (e + 1) := by
      rw [two_zpow_succ_split e]
      apply mul_le_mul_of_nonneg_right _ (le_of_lt hu)
      exact_mod_cast h2
    have h4 : (2 : ℚ) ^ (e + 1) ≤ (2 : ℚ) ^ e0 := two_zpow_mono (by omega)
    have h5 : (2 : ℚ) ^ e0 ≤ (n : ℚ) * (2 : ℚ) ^ (e0 - 52) := by
      rw [two_zpow_split e0]
      apply mul_le_mul_of_nonneg_right _ (le_of_lt (two_zpow_pos _))
      exact_mod_cast hn
    linarith

theorem roundedMagnitude_intCast (T : ℤ) (h0 : 0 < T) (h1 : T < 2 ^ 53) :
    roundedMagnitude (T : ℚ) = T := by
  have hx : (0 : ℚ) < (T : ℚ) := by exact_mod_cast h0
  have hL0 : 0 ≤ Int.log 2 (T : ℚ) := by
    apply (Int.zpow_le_iff_le_log (by norm_num : 1 < 2) hx).mp
    have : (1 : ℚ) ≤ (T : ℚ) := by exact_mod_cast h0
    simpa using this
  have hL1 : Int.log 2 (T : ℚ) < 53 := by
    apply (Int.lt_zpow_iff_log_lt (by norm_num : 1 < 2) hx).mp
    have : (T : ℚ) < ((2 ^ 53 : ℤ) : ℚ) := by exact_mod_cast h1
    norm_num at this ⊢
    exact this
  unfold roundedMagnitude
  rw [max_eq_left (by omega : (-1022 : ℤ) ≤ Int.log 2 (T : ℚ))]
  obtain ⟨k, hk⟩ : ∃ k : ℕ, Int.log 2 (T : ℚ) - 52 = -(k : ℤ) :=
    ⟨(52 - Int.log 2 (T : ℚ)).toNat, by omega⟩
  rw [hk, zpow_neg, zpow_natCast, div_inv_eq_mul]
  have hcast : (T : ℚ) * (2 : ℚ) ^ k = ((T * 2 ^ k : ℤ) : ℚ) := by push_cast; ring
  rw [hcast, roundHalfEven_intCast]
  push_cast
  field_simp

theorem round_intCast (T : ℤ) (h0 : 0 < T) (h1 : T < 2 ^ 53) :
    F64.round (T : ℚ) = .finite (T : ℚ) := by
  have hx : (0 : ℚ) < (T : ℚ) := by exact_mod_cast h0
  rw [round_of_pos _ hx, roundedMagnitude_intCast T h0 h1, if_neg]
  have : (T : ℚ) < ((2 ^ 53 : ℤ) : ℚ) := by exact_mod_cast h1
  have h2 : ((2 ^ 53 : ℤ) : ℚ) ≤ (2 : ℚ) ^ (1024 : ℤ) := by norm_num
  linarith

theorem ofInt_exact (n : Int) (h0 : 0 ≤ n) (h1 : n < 2 ^ 53) : F64.ofInt n = .finite (n : ℚ) := by
  unfold F64.ofInt
  rcases eq_or_lt_of_le h0 with h | h
  · rw [← h]
    simpa using round_zero
  · exact round_intCast n h h1

theorem round_atLeast (x : ℚ) (hx : 0 < x) (e0 n : ℤ) (hn : 2 ^ 52 ≤ n) (hn2 : n ≤ 2 ^ 53)
    (he0 : -1022 ≤ e0) (hb : (n : ℚ) * (2 : ℚ) ^ (e0 - 52) ≤ x) :
    (F64.round x).atLeast ((n : ℚ) * (2 : ℚ) ^ (e0 - 52)) := by
  rw [round_of_pos x hx]
  split
  · exact Or.inl rfl
  · exact Or.inr ⟨_, rfl, le_roundedMagnitude x hx e0 n hn hn2 he0 hb⟩

theorem round_atMost (x : ℚ) (hx : 0 < x) (e0 n : ℤ) (hn : 2 ^ 52 ≤ n) (hn2 : n < 2 ^ 53)
    (he0 : -1022 ≤ e0) (he1 : e0 ≤ 1022) (hb : x ≤ (n : ℚ) * (2 : ℚ) ^ (e0 - 52)) :
    (F64.round x).atMost ((n : ℚ) * (2 : ℚ) ^ (e0 - 52)) := by
  have hm := roundedMagnitude_le x hx e0 n hn hn2 he0 hb
  have hlt : (n : ℚ) * (2 : ℚ) ^ (e0 - 52) < (2 : ℚ) ^ (1024 : ℤ) := by
    have h1 : (n : ℚ) * (2 : ℚ) ^ (e0 - 52) < (2 : ℚ) ^ (e0 + 1) := by
      rw [two_zpow_succ_split e0]
      apply mul_lt_mul_of_pos_right _ (two_zpow_pos _)
      exact_mod_cast hn2
    exact lt_of_lt_of_le h1 (two_zpow_mono (by omega))
  rw [round_of_pos x hx, if_neg (by linarith)]
  exact Or.inr ⟨_, rfl, hm⟩

theorem round_atMost_zero (x : ℚ) (hx : x ≤ 0) : (F64.round x).atMost 0 := by
  rcases eq_or_lt_of_le hx with h0 | hneg
  · rw [h0]
    exact Or.inr ⟨0, by simp [F64.round], le_refl _⟩
  · rw [round_of_neg x hneg]
    split
    · exact Or.inl rfl
    · refine Or.inr ⟨_, rfl, ?_⟩
      have hpos : (0 : ℚ) ≤ roundedMagnitude (-x) := by
        unfold roundedMagnitude
        apply mul_nonneg _ (le_of_lt (two_zpow_pos _))
        have : ((0 : ℤ) : ℚ) ≤ -x / (2 : ℚ) ^ (max (Int.log 2 (-x)) (-1022) - 52) := by
          push_cast
          exact div_nonneg (by linarith) (le_of_lt (two_zpow_pos _))
        exact_mod_cast le_roundHalfEven _ 0 this
      linarith

theorem gt_of_atLeast (r : F64) (b c : ℚ) (h : r.atLeast b) (hc : c < b) :
    F64.gt r (.finite c) = true := by
  rcases h with rfl | ⟨y, rfl, hy⟩
  · rfl
  · simp only [F64.gt, decide_eq_true_eq]
    linarith

theorem gt_of_atMost (r : F64) (b c : ℚ) (h : r.atMost b) (hc : b ≤ c) :
    F64.gt r (.finite c) = false := by
  rcases h with rfl | ⟨y, rfl, hy⟩
  · rfl
  · simp only [F64.gt, decide_eq_false_iff_not, not_lt]
    linarith

theorem div_finite (a b : ℚ) (hb : b ≠ 0) :
    F64.div (.finite a) (.finite b) = F64.round (a / b) := by
  simp [F64.div, hb]

/-- The binary64 value of the constant `0.01`. -/
theorem round_errorThreshold :
    F64.round errorThreshold = .finite (5764607523034235 / 576460752303423488) := by
  have hx : (0 : ℚ) < errorThreshold := by norm_num [errorThreshold]
  have hL : Int.log 2 errorThreshold = -7 := by
    apply le_antisymm
    · have : Int.log 2 errorThreshold < -6 := by
        apply (Int.lt_zpow_iff_log_lt (by norm_num : 1 < 2) hx).mp
        norm_num [errorThreshold]
      omega
    · apply (Int.zpow_le_iff_le_log (by norm_num : 1 < 2) hx).mp
      norm_num [errorThreshold]
  have hm : roundedMagnitude errorThreshold = 5764607523034235 / 576460752303423488 := by
    unfold roundedMagnitude
    rw [hL, roundHalfEven_eq_of_near _ 5764607523034235] <;> norm_num [errorThreshold]
  rw [round_of_pos _ hx, hm, if_neg (by norm_num)]

/-- The conversion `float64(9999999999999999)` rounds up to `1e16`. -/
theorem round_tie_example : F64.ofInt 9999999999999999 = .finite 10000000000000000 := by
  have hx : (0 : ℚ) < ((9999999999999999 : ℤ) : ℚ) := by norm_num
  have hm : roundedMagnitude ((9999999999999999 : ℤ) : ℚ) = 10000000000000000 := by
    rw [roundedMagnitude_of_binade _ 53 hx (by norm_num) (by norm_num) (by norm_num)]
    have h2 : ((9999999999999999 : ℤ) : ℚ) / (2 : ℚ) ^ ((53 : ℤ) - 52)
        = ((4999999999999999 : ℤ) : ℚ) + 1 / 2 := by norm_num
    rw [h2, roundHalfEven_half, if_neg (by decide)]
    norm_num
  unfold F64.ofInt
  rw [round_of_pos _ hx, hm, if_neg (by norm_num)]

/-- The smallest binary64 value above that of `0.01`, as a grid point. -/
theorem next_above_threshold :
    ((5764607523034236 : ℤ) : ℚ) * (2 : ℚ) ^ ((-7 : ℤ) - 52)
      = 5764607523034236 / 576460752303423488 := by
  norm_num

theorem threshold_grid :
    ((5764607523034235 : ℤ) : ℚ) * (2 : ℚ) ^ ((-7 : ℤ) - 52)
      = 5764607523034235 / 576460752303423488 := by
  norm_num

/-- A quotient of at least `y / T` with `y` beyond the hundredth of `T`. -/
theorem round_quotient_above (x : ℚ) (hx : 5764607523034236 / 576460752303423488 ≤ x) :
    F64.gt (F64.round x) (.finite (5764607523034235 / 576460752303423488)) = true := by
  have hpos : (0 : ℚ) < 5764607523034236 / 576460752303423488 := by norm_num
  have h := round_atLeast x (lt_of_lt_of_le hpos hx) (-7) 5764607523034236 (by norm_num)
    (by norm_num) (by norm_num) (by rw [next_above_threshold]; exact hx)
  rw [next_above_threshold] at h
  exact gt_of_atLeast _ _ _ h (by norm_num)

theorem round_quotient_below (x : ℚ) (hx : x ≤ 1 / 100) :
    F64.gt (F64.round x) (.finite (5764607523034235 / 576460752303423488)) = false := by
  rcases le_or_lt x 0 with h0 | h0
  · exact gt_of_atMost _ _ _ (round_atMost_zero x h0) (by norm_num)
  · have hc : (1 : ℚ) / 100 ≤ 5764607523034235 / 576460752303423488 := by norm_num
    have h := round_atMost x h0 (-7) 5764607523034235 (by norm_num) (by norm_num) (by norm_num)
      (by norm_num) (by rw [threshold_grid]; exact le_trans hx hc)
    rw [threshold_grid] at h
    exact gt_of_atMost _ _ _ h (le_refl _)

/-- The comparison `float64(F) / float64(T) > 0.01` agrees with the exact
comparison of `F / T` with one hundredth as long as `0 < T ≤ 2^52`. -/
theorem errorRate_gt_iff (F T : ℤ) (hT : 0 < T) (hT2 : T ≤ 2 ^ 52) :
    F64.gt (F64.div (F64.ofInt F) (F64.ofInt T)) (F64.round errorThreshold) = true
      ↔ (1 : ℚ) / 100 < (F : ℚ) / (T : ℚ) := by
  have hTq : (0 : ℚ) < (T : ℚ) := by exact_mod_cast hT
  have hTq2 : (T : ℚ) ≤ 4503599627370496 := by
    have : (T : ℚ) ≤ ((2 ^ 52 : ℤ) : ℚ) := by exact_mod_cast hT2
    norm_num at this
    exact this
  have hTne : (T : ℚ) ≠ 0 := ne_of_gt hTq
  rw [round_errorThreshold]
  unfold F64.ofInt
  rw [round_intCast T hT (by omega)]
  rcases lt_trichotomy F 0 with hF | hF | hF
  · -- a negative count: the quotient is not positive
    have hFq : (F : ℚ) < 0 := by exact_mod_cast hF
    have hq : (F : ℚ) / (T : ℚ) < 0 := div_neg_of_neg_of_pos hFq hTq
    have hrhs : ¬ ((1 : ℚ) / 100 < (F : ℚ) / (T : ℚ)) := by linarith
    have hlhs : F64.gt (F64.div (F64.round (F : ℚ)) (.finite (T : ℚ)))
        (.finite (5764607523034235 / 576460752303423488)) = false := by
      rcases round_atMost_zero (F : ℚ) (le_of_lt hFq) with h | ⟨y, h, hy⟩
      · rw [h]
        simp [F64.div, le_of_lt hTq, F64.gt]
      · rw [h, div_finite _ _ hTne]
        have : y / (T : ℚ) ≤ 0 := div_nonpos_of_nonpos_of_nonneg hy (le_of_lt hTq)
        exact round_quotient_below _ (by linarith)
    rw [hlhs]
    exact iff_of_false (by simp) hrhs
  · subst hF
    simp only [Int.cast_zero, zero_div]
    have h0 : F64.round (0 : ℚ) = .finite 0 := by simp [F64.round]
    rw [h0, div_finite _ _ hTne, zero_div, h0]
    simp only [F64.gt, decide_eq_true_eq]
    constructor <;> intro h <;> norm_num at h
  · have hFq : (0 : ℚ) < (F : ℚ) := by exact_mod_cast hF
    rcases lt_or_le F (2 ^ 53) with hsmall | hbig
    · rw [round_intCast F hF hsmall, div_finite _ _ hTne]
      rcases le_or_lt (100 * F) T with hle | hgt
      · have hleq : (100 : ℚ) * (F : ℚ) ≤ (T : ℚ) := by exact_mod_cast hle
        have hx : (F : ℚ) / (T : ℚ) ≤ 1 / 100 := by
          rw [div_le_iff₀ hTq]
          linarith
        rw [round_quotient_below _ hx]
        exact iff_of_false (by simp) (not_lt.mpr hx)
      · have hgt2 : T + 1 ≤ 100 * F := by omega
        have hgtq : (T : ℚ) + 1 ≤ (100 : ℚ) * (F : ℚ) := by exact_mod_cast hgt2
        have hx : (5764607523034236 : ℚ) / 576460752303423488 ≤ (F : ℚ) / (T : ℚ) := by
          rw [le_div_iff₀ hTq]
          linarith
        have hrhs : (1 : ℚ) / 100 < (F : ℚ) / (T : ℚ) := by
          rw [lt_div_iff₀ hTq]
          linarith
        rw [round_quotient_above _ hx]
        exact iff_of_true rfl hrhs
    · have hbigq : (9007199254740992 : ℚ) ≤ (F : ℚ) := by
        have : ((2 ^ 53 : ℤ) : ℚ) ≤ (F : ℚ) := by exact_mod_cast hbig
        norm_num at this
        exact this
      have hrhs : (1 : ℚ) / 100 < (F : ℚ) / (T : ℚ) := by
        rw [lt_div_iff₀ hTq]
        linarith
      have hgrid : ((2 ^ 52 : ℤ) : ℚ) * (2 : ℚ) ^ ((53 : ℤ) - 52) = 9007199254740992 := by
        norm_num
      have hlhs : F64.gt (F64.div (F64.round (F : ℚ)) (.finite (T : ℚ)))
          (.finite (5764607523034235 / 576460752303423488)) = true := by
        have hal := round_atLeast (F : ℚ) hFq 53 (2 ^ 52) (le_refl _) (by norm_num) (by norm_num)
          (by rw [hgrid]; exact hbigq)
        rw [hgrid] at hal
        rcases hal with h | ⟨y, h, hy⟩
        · rw [h]
          simp [F64.div, le_of_lt hTq, F64.gt]
        · rw [h, div_finite _ _ hTne]
          apply round_quotient_above
          rw [le_div_iff₀ hTq]
          linarith
      rw [hlhs]
      exact iff_of_true rfl hrhs

/-- The value of `int(testDuration.Seconds())`. -/
theorem testDurationSeconds_eq : testDurationSeconds = 5 := by
  have h5 : testDuration.tdiv second = 5 := by decide
  have h0 : testDuration.tmod second = 0 := by decide
  have hb : F64.round 1000000000 = .finite 1000000000 := by
    have := round_intCast 1000000000 (by norm_num) (by norm_num)
    exact_mod_cast this
  have hs : durationSeconds testDuration = .finite 5 := by
    unfold durationSeconds
    rw [h5, h0, hb, ofInt_exact 5 (by norm_num) (by norm_num),
      ofInt_exact 0 (by norm_num) (by norm_num)]
    rw [div_finite _ _ (by norm_num)]
    simp only [Int.cast_zero, zero_div, round_zero, F64.add, Int.cast_ofNat, add_zero]
    have := round_intCast 5 (by norm_num) (by norm_num)
    exact_mod_cast this
  unfold testDurationSeconds
  rw [hs]
  simp [F64.toInt?]

/-! ### `generateUsers` -/

/-- The user names in index order, as a map over the indices. -/
theorem generateUsersLoop_eq (n k : Nat) (hk : k ≤ n) :
    (List.range k).foldl (fun us i => us.set i (sprintfUser ((i : Int) + 1)))
        (List.replicate n "")
      = (List.range k).map (fun i : Nat => sprintfUser ((i : Int) + 1)) ++ List.replicate (n - k) "" := by
  induction k with
  | zero => simp
  | succ k ih =>
    rw [List.range_succ, List.foldl_append, ih (by omega), List.map_append]
    simp only [List.foldl_cons, List.foldl_nil, List.map_cons, List.map_nil]
    have hlen : ((List.range k).map (fun i : Nat => sprintfUser ((i : Int) + 1))).length = k := by simp
    rw [List.set_append_right _ _ (by rw [hlen]), hlen, Nat.sub_self]
    have hrep : List.replicate (n - k) "" = "" :: List.replicate (n - (k + 1)) "" := by
      rw [← List.replicate_succ]
      congr 1
      omega
    rw [hrep, List.set_cons_zero, List.append_assoc]
    rfl

theorem generateUsers_eq (memLimit : Int) (n : Nat) (h : 16 * (n : Int) ≤ memLimit) :
    generateUsers memLimit n
      = .ok ((List.range n).map (fun i : Nat => sprintfUser ((i : Int) + 1))) := by
  have hok : makesliceOk memLimit 16 (n : Int) = true := by
    simp only [makesliceOk, Bool.and_eq_true, decide_eq_true_eq]
    exact ⟨by omega, h⟩
  unfold generateUsers generateUsersLoop
  simp only [hok, Bool.not_true, Bool.false_eq_true, if_false, Int.toNat_ofNat]
  rw [generateUsersLoop_eq n n (le_refl _)]
  simp

/-- The digit a decimal character stands for. -/
theorem digitChar_injOn (a b : Nat) (ha : a < 10) (hb : b < 10)
    (h : Nat.digitChar a = Nat.digitChar b) : a = b := by
  interval_cases a <;> interval_cases b <;> first | rfl | (exact absurd h (by decide))

theorem map_digitChar_inj (l1 l2 : List Nat) (h1 : ∀ d ∈ l1, d < 10) (h2 : ∀ d ∈ l2, d < 10)
    (h : l1.map Nat.digitChar = l2.map Nat.digitChar) : l1 = l2 := by
  induction l1 generalizing l2 with
  | nil =>
    cases l2 with
    | nil => rfl
    | cons b bs => simp at h
  | cons a as ih =>
    cases l2 with
    | nil => simp at h
    | cons b bs =>
      simp only [List.map_cons, List.cons.injEq] at h
      have hab := digitChar_injOn a b (h1 a (List.mem_cons_self _ _))
        (h2 b (List.mem_cons_self _ _)) h.1
      have hrest := ih bs (fun d hd => h1 d (List.mem_cons_of_mem _ hd))
        (fun d hd => h2 d (List.mem_cons_of_mem _ hd)) h.2
      rw [hab, hrest]

theorem decimalDigits_inj (a b : Nat) (ha : 0 < a) (hb : 0 < b)
    (h : decimalDigits a = decimalDigits b) : a = b := by
  unfold decimalDigits at h
  rw [if_neg (by omega), if_neg (by omega)] at h
  have hrev := map_digitChar_inj _ _
    (fun d hd => Nat.digits_lt_base (by norm_num) (List.mem_reverse.mp hd))
    (fun d hd => Nat.digits_lt_base (by norm_num) (List.mem_reverse.mp hd)) h
  exact Nat.digits_inj_iff.mp (List.reverse_injective hrev)

theorem sprintfUser_eq (k : Nat) :
    sprintfUser ((k : Int) + 1) = "user" ++ String.mk (decimalDigits (k + 1)) := by
  unfold sprintfUser formatInt
  rw [if_neg (by omega)]
  have : ((k : Int) + 1).natAbs = k + 1 := by omega
  rw [this]

theorem sprintfUser_inj (a b : Nat) (h : sprintfUser ((a : Int) + 1) = sprintfUser ((b : Int) + 1)) :
    a = b := by
  rw [sprintfUser_eq, sprintfUser_eq] at h
  have h1 : ("user" ++ String.mk (decimalDigits (a + 1))).data
      = ("user" ++ String.mk (decimalDigits (b + 1))).data := by rw [h]
  simp only [String.data_append] at h1
  have h2 := List.append_cancel_left h1
  have := decimalDigits_inj (a + 1) (b + 1) (by omega) (by omega) h2
  omega

/-- The decimal rendering used for the names, on the last user of the
default population. -/
theorem decimalDigits_example : String.mk (decimalDigits 10000) = "10000" := by
  unfold decimalDigits
  norm_num [Nat.digitChar]

/-- C9, as stated, fails for a large `N`: at `N = 2^45` the slice would take
`16 * 2^45 = 2^49` bytes, above the 2^48 the runtime grants, and
`make([]string, N)` panics with `makeslice: len out of range`; no sequence is
returned. -/
theorem generateUsers_len_out_of_range :
    generateUsers maxAlloc 35184372088832 = .error .makesliceLenOutOfRange ∧
    ¬ ∃ users : List String, generateUsers maxAlloc 35184372088832 = .ok users := by
  have hbad : makesliceOk maxAlloc 16 35184372088832 = false := by decide
  have h : generateUsers maxAlloc 35184372088832 = .error .makesliceLenOutOfRange := by
    unfold generateUsers
    simp only [hbad, Bool.not_false, if_true]
  refine ⟨h, ?_⟩
  rintro ⟨users, hu⟩
  rw [h] at hu
  cases hu

/-- C9, amended: for every `N ≥ 0` whose slice is within the allocation limit
of the runtime (`16 * N ≤ memLimit`), `generateUsers(N)` returns a slice of
exactly `N` identities, pairwise distinct, whose `i`-th entry (from 0) is
`"user"` followed by the decimal digits of `i + 1`; the slice is a function
of `N` alone. -/
theorem generateUsers_spec (memLimit : Int) (n : Nat) (h : 16 * (n : Int) ≤ memLimit) :
    ∃ users : List String, generateUsers memLimit (n : Int) = .ok users ∧
      users = (List.range n).map (fun i : Nat => "user" ++ String.mk (decimalDigits (i + 1))) ∧
      users.length = n ∧ users.Nodup ∧
      ∀ i : Nat, i < n → users[i]? = some ("user" ++ String.mk (decimalDigits (i + 1))) := by
  have hmap : (List.range n).map (fun i : Nat => sprintfUser ((i : Int) + 1))
      = (List.range n).map (fun i : Nat => "user" ++ String.mk (decimalDigits (i + 1))) :=
    List.map_congr_left (fun i _ => sprintfUser_eq i)
  refine ⟨_, generateUsers_eq memLimit n h, hmap, by simp, ?_, ?_⟩
  · apply List.Nodup.map_on _ (List.nodup_range n)
    intro a _ b _ hab
    exact sprintfUser_inj a b hab
  · intro i hi
    rw [List.getElem?_map, List.getElem?_range hi]
    simp only [Option.map_some']
    rw [sprintfUser_eq]

/-- Witness of C9 (amended): the 10000 users of `main`, under the limit of a
64-bit platform. -/
theorem generateUsers_spec_witness :
    16 * ((10000 : Nat) : Int) ≤ maxAlloc ∧
    ∃ users : List String, generateUsers maxAlloc ((10000 : Nat) : Int) = .ok users ∧
      users.length = 10000 ∧ users.Nodup :=
  have h : 16 * ((10000 : Nat) : Int) ≤ maxAlloc := by decide
  ⟨h, (generateUsers_spec maxAlloc 10000 h).imp (fun _ hu => ⟨hu.1, hu.2.2.1, hu.2.2.2.1⟩)⟩

/-! ### `calculateMetrics` -/

theorem wrap64_add_left (a b : Int) : wrap64 (wrap64 a + b) = wrap64 (a + b) := by
  unfold wrap64
  omega

theorem wrap64_of_range (x : Int) (h0 : -2 ^ 63 ≤ x) (h1 : x < 2 ^ 63) : wrap64 x = x := by
  unfold wrap64
  omega

theorem foldl_recordSuccess_count (results : List Int) (acc : MetricsAcc) :
    (results.foldl recordSuccess acc).metrics.SuccessfulCalls
      = acc.metrics.SuccessfulCalls + results.length := by
  induction results generalizing acc with
  | nil => simp
  | cons d ds ih =>
    rw [List.foldl_cons, ih]
    have : (recordSuccess acc d).metrics.SuccessfulCalls = acc.metrics.SuccessfulCalls + 1 := by
      unfold recordSuccess
      simp only
      split <;> split <;> rfl
    rw [this, List.length_cons]
    push_cast
    ring

theorem foldl_recordSuccess_total (results : List Int) (acc : MetricsAcc) :
    wrap64 (results.foldl recordSuccess acc).totalLatency
      = wrap64 (acc.totalLatency + results.sum) := by
  induction results generalizing acc with
  | nil => simp
  | cons d ds ih =>
    rw [List.foldl_cons, ih]
    have : (recordSuccess acc d).totalLatency = wrap64 (acc.totalLatency + d) := rfl
    rw [this, wrap64_add_left, List.sum_cons, add_assoc]

theorem foldl_recordSuccess_total_wrapped (results : List Int) (acc : MetricsAcc)
    (h : wrap64 acc.totalLatency = acc.totalLatency) :
    (results.foldl recordSuccess acc).totalLatency = wrap64 (acc.totalLatency + results.sum) := by
  rw [← foldl_recordSuccess_total]
  induction results generalizing acc with
  | nil => simpa using h.symm
  | cons d ds ih =>
    rw [List.foldl_cons]
    apply ih
    show wrap64 (wrap64 (acc.totalLatency + d)) = wrap64 (acc.totalLatency + d)
    unfold wrap64
    omega

theorem foldl_recordSuccess_min (results : List Int) (acc : MetricsAcc) :
    (results.foldl recordSuccess acc).metrics.MinDuration
      = results.foldl min acc.metrics.MinDuration := by
  induction results generalizing acc with
  | nil => simp
  | cons d ds ih =>
    rw [List.foldl_cons, ih, List.foldl_cons]
    have : (recordSuccess acc d).metrics.MinDuration = min acc.metrics.MinDuration d := by
      by_cases h1 : d < acc.metrics.MinDuration <;> by_cases h2 : d > acc.metrics.MaxDuration <;>
        simp [recordSuccess, h1, h2] <;> omega
    rw [this]

theorem foldl_recordSuccess_max (results : List Int) (acc : MetricsAcc) :
    (results.foldl recordSuccess acc).metrics.MaxDuration
      = results.foldl max acc.metrics.MaxDuration := by
  induction results generalizing acc with
  | nil => simp
  | cons d ds ih =>
    rw [List.foldl_cons, ih, List.foldl_cons]
    have : (recordSuccess acc d).metrics.MaxDuration = max acc.metrics.MaxDuration d := by
      by_cases h1 : d < acc.metrics.MinDuration <;> by_cases h2 : d > acc.metrics.MaxDuration <;>
        simp [recordSuccess, h1, h2] <;> omega
    rw [this]

theorem foldl_min_le (l : List Int) (a : Int) :
    l.foldl min a ≤ a ∧ ∀ d ∈ l, l.foldl min a ≤ d := by
  induction l generalizing a with
  | nil => simp
  | cons x xs ih =>
    rw [List.foldl_cons]
    obtain ⟨h1, h2⟩ := ih (min a x)
    refine ⟨le_trans h1 (min_le_left _ _), ?_⟩
    intro d hd
    rcases List.mem_cons.mp hd with rfl | hd
    · exact le_trans h1 (min_le_right _ _)
    · exact h2 d hd

theorem foldl_min_mem (l : List Int) (a : Int) : l.foldl min a = a ∨ l.foldl min a ∈ l := by
  induction l generalizing a with
  | nil => simp
  | cons x xs ih =>
    rw [List.foldl_cons]
    rcases ih (min a x) with h | h
    · rcases min_choice a x with h' | h'
      · left; rw [h, h']
      · right; rw [h, h']; exact List.mem_cons_self _ _
    · right; exact List.mem_cons_of_mem _ h

theorem le_foldl_max (l : List Int) (a : Int) :
    a ≤ l.foldl max a ∧ ∀ d ∈ l, d ≤ l.foldl max a := by
  induction l generalizing a with
  | nil => simp
  | cons x xs ih =>
    rw [List.foldl_cons]
    obtain ⟨h1, h2⟩ := ih (max a x)
    refine ⟨le_trans (le_max_left _ _) h1, ?_⟩
    intro d hd
    rcases List.mem_cons.mp hd with rfl | hd
    · exact le_trans (le_max_right _ _) h1
    · exact h2 d hd

theorem foldl_max_mem (l : List Int) (a : Int) : l.foldl max a = a ∨ l.foldl max a ∈ l := by
  induction l generalizing a with
  | nil => simp
  | cons x xs ih =>
    rw [List.foldl_cons]
    rcases ih (max a x) with h | h
    · rcases max_choice a x with h' | h'
      · left; rw [h, h']
      · right; rw [h, h']; exact List.mem_cons_self _ _
    · right; exact List.mem_cons_of_mem _ h

theorem foldl_min_init_of_le (l : List Int) (a : Int) (hne : l ≠ []) (h : ∀ d ∈ l, d ≤ a) :
    l.foldl min a ∈ l := by
  rcases foldl_min_mem l a with h0 | h0
  · obtain ⟨x, hx⟩ := List.exists_mem_of_ne_nil l hne
    have h1 := (foldl_min_le l a).2 x hx
    have h2 := h x hx
    have : x = l.foldl min a := by omega
    rw [← this]
    exact hx
  · exact h0

theorem foldl_max_init_of_le (l : List Int) (a : Int) (hne : l ≠ []) (h : ∀ d ∈ l, a ≤ d) :
    l.foldl max a ∈ l := by
  rcases foldl_max_mem l a with h0 | h0
  · obtain ⟨x, hx⟩ := List.exists_mem_of_ne_nil l hne
    have h1 := (le_foldl_max l a).2 x hx
    have h2 := h x hx
    have : x = l.foldl max a := by omega
    rw [← this]
    exact hx
  · exact h0

theorem sum_le_length_mul (l : List Int) (b : Int) (h : ∀ d ∈ l, d ≤ b) :
    l.sum ≤ l.length * b := by
  induction l with
  | nil => simp
  | cons x xs ih =>
    have h1 := h x (List.mem_cons_self _ _)
    have h2 := ih (fun d hd => h d (List.mem_cons_of_mem _ hd))
    simp only [List.sum_cons, List.length_cons]
    push_cast
    linarith

theorem length_mul_le_sum (l : List Int) (b : Int) (h : ∀ d ∈ l, b ≤ d) :
    l.length * b ≤ l.sum := by
  induction l with
  | nil => simp
  | cons x xs ih =>
    have h1 := h x (List.mem_cons_self _ _)
    have h2 := ih (fun d hd => h d (List.mem_cons_of_mem _ hd))
    simp only [List.sum_cons, List.length_cons]
    push_cast
    linarith

theorem mem_le_sum_of_nonneg (l : List Int) (h : ∀ d ∈ l, 0 ≤ d) : ∀ d ∈ l, d ≤ l.sum := by
  induction l with
  | nil => simp
  | cons x xs ih =>
    intro d hd
    have hx := h x (List.mem_cons_self _ _)
    have hxs : ∀ d ∈ xs, 0 ≤ d := fun d hd => h d (List.mem_cons_of_mem _ hd)
    have hs : 0 ≤ xs.sum := List.sum_nonneg hxs
    rw [List.sum_cons]
    rcases List.mem_cons.mp hd with rfl | hd
    · omega
    · have := ih hxs d hd
      omega

theorem calculateMetrics_successful (results : List Int) (errors : List String) (td : Int) :
    (calculateMetrics results errors td).SuccessfulCalls = results.length := by
  have h := foldl_recordSuccess_count results initAcc
  simp only [initAcc, Metrics.zero, zero_add] at h
  unfold calculateMetrics
  simp only [Metrics.zero]
  split <;> simpa using h

theorem calculateMetrics_failed (results : List Int) (errors : List String) (td : Int) :
    (calculateMetrics results errors td).FailedCalls = errors.length := by
  unfold calculateMetrics
  simp only
  split <;> rfl

theorem calculateMetrics_total (results : List Int) (errors : List String) (td : Int) :
    (calculateMetrics results errors td).TotalRequests = results.length + errors.length := by
  have h := foldl_recordSuccess_count results initAcc
  simp only [initAcc, Metrics.zero, zero_add] at h
  unfold calculateMetrics
  simp only [Metrics.zero]
  split <;> simpa using h

theorem calculateMetrics_min (results : List Int) (errors : List String) (td : Int) :
    (calculateMetrics results errors td).MinDuration = results.foldl min (2 ^ 63 - 1) := by
  have h := foldl_recordSuccess_min results initAcc
  simp only [initAcc, Metrics.zero] at h
  unfold calculateMetrics
  simp only [Metrics.zero]
  split <;> simpa using h

theorem calculateMetrics_max (results : List Int) (errors : List String) (td : Int) :
    (calculateMetrics results errors td).MaxDuration = results.foldl max 0 := by
  have h := foldl_recordSuccess_max results initAcc
  simp only [initAcc, Metrics.zero] at h
  unfold calculateMetrics
  simp only [Metrics.zero]
  split <;> simpa using h

theorem calculateMetrics_average (results : List Int) (errors : List String) (td : Int) :
    (calculateMetrics results errors td).AverageDuration
      = if results = [] then 0 else (wrap64 results.sum).tdiv results.length := by
  have hc := foldl_recordSuccess_count results initAcc
  have ht := foldl_recordSuccess_total_wrapped results initAcc (by simp [initAcc, wrap64])
  simp only [initAcc, Metrics.zero, zero_add] at hc ht
  unfold calculateMetrics
  simp only [Metrics.zero]
  rw [hc, ht]
  cases results with
  | nil => simp
  | cons d ds =>
    have : ((d :: ds).length : Int) > 0 := by simp
    simp [this]

/-- C5: `calculateMetrics` counts every latency as one successful call and
every buffered error as one failed call, the total is their sum, and the three
latency fields are the same whatever the errors and the elapsed time are. -/
theorem calculateMetrics_counts (results : List Int) (errors : List String) (td : Int) :
    (calculateMetrics results errors td).SuccessfulCalls = results.length ∧
    (calculateMetrics results errors td).FailedCalls = errors.length ∧
    (calculateMetrics results errors td).TotalRequests
      = (calculateMetrics results errors td).SuccessfulCalls
        + (calculateMetrics results errors td).FailedCalls ∧
    ∀ (errors2 : List String) (td2 : Int),
      (calculateMetrics results errors2 td2).MinDuration
        = (calculateMetrics results errors td).MinDuration ∧
      (calculateMetrics results errors2 td2).MaxDuration
        = (calculateMetrics results errors td).MaxDuration ∧
      (calculateMetrics results errors2 td2).AverageDuration
        = (calculateMetrics results errors td).AverageDuration := by
  refine ⟨calculateMetrics_successful _ _ _, calculateMetrics_failed _ _ _, ?_, ?_⟩
  · rw [calculateMetrics_total, calculateMetrics_successful, calculateMetrics_failed]
  · intro errors2 td2
    simp only [calculateMetrics_min, calculateMetrics_max, calculateMetrics_average, and_self]

/-- C6, as stated, fails: a run without any successful call and with one
error reports `MinDuration = 2^63 - 1`, so the three latency fields are not
all zero. -/
theorem calculateMetrics_empty_min_not_zero :
    ¬ ((calculateMetrics [] ["connection refused"] 5000000000).AverageDuration = 0 ∧
       (calculateMetrics [] ["connection refused"] 5000000000).MinDuration = 0 ∧
       (calculateMetrics [] ["connection refused"] 5000000000).MaxDuration = 0) := by
  rw [calculateMetrics_min]
  simp

/-- C6, amended: without a successful call `AverageDuration` and `MaxDuration`
are zero and `MinDuration` keeps the value `1<<63 - 1` it was initialised to,
whatever the errors and the elapsed time. -/
theorem calculateMetrics_no_success (errors : List String) (td : Int) :
    (calculateMetrics [] errors td).AverageDuration = 0 ∧
    (calculateMetrics [] errors td).MaxDuration = 0 ∧
    (calculateMetrics [] errors td).MinDuration = 2 ^ 63 - 1 := by
  rw [calculateMetrics_average, calculateMetrics_max, calculateMetrics_min]
  simp

/-- C7: for a non-empty collection of non-negative latencies whose sum fits in
a signed 64-bit integer, `MinDuration` is the smallest and `MaxDuration` the
largest latency, `AverageDuration` is the truncated quotient of the sum by the
count, and `MinDuration ≤ AverageDuration ≤ MaxDuration`. -/
theorem calculateMetrics_min_le_avg_le_max (results : List Int) (errors : List String)
    (td : Int) (hne : results ≠ []) (hpos : ∀ d ∈ results, 0 ≤ d)
    (hsum : results.sum < 2 ^ 63) :
    (calculateMetrics results errors td).MinDuration ∈ results ∧
    (∀ d ∈ results, (calculateMetrics results errors td).MinDuration ≤ d) ∧
    (calculateMetrics results errors td).MaxDuration ∈ results ∧
    (∀ d ∈ results, d ≤ (calculateMetrics results errors td).MaxDuration) ∧
    (calculateMetrics results errors td).AverageDuration
      = results.sum.tdiv (results.length : Int) ∧
    (calculateMetrics results errors td).MinDuration
      ≤ (calculateMetrics results errors td).AverageDuration ∧
    (calculateMetrics results errors td).AverageDuration
      ≤ (calculateMetrics results errors td).MaxDuration := by
  have hs0 : 0 ≤ results.sum := List.sum_nonneg hpos
  have hle : ∀ d ∈ results, d ≤ 2 ^ 63 - 1 := fun d hd => by
    have := mem_le_sum_of_nonneg results hpos d hd
    omega
  have hminmem := foldl_min_init_of_le results (2 ^ 63 - 1) hne hle
  have hmaxmem := foldl_max_init_of_le results 0 hne hpos
  have hminle := (foldl_min_le results (2 ^ 63 - 1)).2
  have hmaxle := (le_foldl_max results 0).2
  have hlen : (0 : Int) < results.length := by
    cases results with
    | nil => exact absurd rfl hne
    | cons d ds => simp
  have havg : (calculateMetrics results errors td).AverageDuration
      = results.sum / (results.length : Int) := by
    rw [calculateMetrics_average, if_neg hne, wrap64_of_range _ (by omega) hsum,
      Int.tdiv_eq_ediv hs0 (le_of_lt hlen)]
  have hlo := length_mul_le_sum results _ hminle
  have hhi := sum_le_length_mul results _ hmaxle
  rw [calculateMetrics_min, calculateMetrics_max]
  refine ⟨hminmem, hminle, hmaxmem, hmaxle, ?_, ?_, ?_⟩
  · rw [havg, Int.tdiv_eq_ediv hs0 (le_of_lt hlen)]
  · rw [havg]
    exact (Int.le_ediv_iff_mul_le hlen).mpr (by linarith)
  · rw [havg]
    exact Int.ediv_le_of_le_mul hlen (by linarith)

/-- Witness of C7 on the latencies 3 ms, 5 ms and 12 ms. -/
theorem calculateMetrics_min_le_avg_le_max_witness :
    ([3000000, 5000000, 12000000] : List Int) ≠ [] ∧
    (∀ d ∈ ([3000000, 5000000, 12000000] : List Int), 0 ≤ d) ∧
    ([3000000, 5000000, 12000000] : List Int).sum < 2 ^ 63 ∧
    (calculateMetrics [3000000, 5000000, 12000000] [] 5000000000).MinDuration
      ≤ (calculateMetrics [3000000, 5000000, 12000000] [] 5000000000).AverageDuration ∧
    (calculateMetrics [3000000, 5000000, 12000000] [] 5000000000).AverageDuration
      ≤ (calculateMetrics [3000000, 5000000, 12000000] [] 5000000000).MaxDuration :=
  ⟨by simp, by simp, by norm_num,
   (calculateMetrics_min_le_avg_le_max [3000000, 5000000, 12000000] [] 5000000000
    (by simp) (by simp) (by norm_num)).2.2.2.2.2⟩

/-! ### The search loop of `findMaxUsers` -/

theorem tdiv_two_bounds (a : Int) : a - 1 ≤ 2 * a.tdiv 2 ∧ 2 * a.tdiv 2 ≤ a + 1 := by
  rcases le_or_lt 0 a with h | h
  · rw [Int.tdiv_eq_ediv h (by norm_num)]
    omega
  · have h2 : a.tdiv 2 = -((-a).tdiv 2) := by rw [Int.neg_tdiv, neg_neg]
    rw [h2, Int.tdiv_eq_ediv (by omega) (by norm_num)]
    omega

theorem testUsers_bounds {σ : Type} (s : SearchState σ) (h : s.minUsers < s.maxUsers) :
    s.minUsers < testUsers s ∧ testUsers s ≤ s.maxUsers := by
  have := tdiv_two_bounds (s.minUsers + s.maxUsers + 1)
  unfold testUsers
  omega

/-- The candidate is the ceiling of the midpoint as soon as the bounds are
not negative. -/
theorem testUsers_eq_ceil {σ : Type} (s : SearchState σ) (h : 0 ≤ s.minUsers + s.maxUsers) :
    testUsers s = ⌈((s.minUsers + s.maxUsers : Int) : ℚ) / 2⌉ := by
  have h1 : testUsers s = (s.minUsers + s.maxUsers + 1) / 2 :=
    Int.tdiv_eq_ediv (by omega) (by norm_num)
  have h2 : 2 * testUsers s ≤ s.minUsers + s.maxUsers + 1 := by omega
  have h3 : s.minUsers + s.maxUsers ≤ 2 * testUsers s := by omega
  have h2q : (2 : ℚ) * (testUsers s : ℚ) ≤ ((s.minUsers + s.maxUsers : Int) : ℚ) + 1 := by
    exact_mod_cast h2
  have h3q : ((s.minUsers + s.maxUsers : Int) : ℚ) ≤ (2 : ℚ) * (testUsers s : ℚ) := by
    exact_mod_cast h3
  symm
  rw [Int.ceil_eq_iff]
  constructor <;> linarith

theorem searchStep_cases {σ : Type} (run : List String → Int → σ → Metrics × σ)
    (users : List String) (s : SearchState σ) :
    (exceedsThresholds (run users (testUsers s) s.world).1 = true ∧
      (searchStep run users s).minUsers = s.minUsers ∧
      (searchStep run users s).maxUsers = testUsers s - 1) ∨
    (exceedsThresholds (run users (testUsers s) s.world).1 = false ∧
      (searchStep run users s).minUsers = testUsers s ∧
      (searchStep run users s).maxUsers = s.maxUsers) := by
  unfold searchStep
  cases h : exceedsThresholds (run users (testUsers s) s.world).1 <;> simp [h]

theorem searchStep_gap {σ : Type} (run : List String → Int → σ → Metrics × σ)
    (users : List String) (s : SearchState σ) (h : s.minUsers < s.maxUsers) :
    ((searchStep run users s).maxUsers - (searchStep run users s).minUsers).toNat
      < (s.maxUsers - s.minUsers).toNat := by
  have hb := testUsers_bounds s h
  unfold searchStep
  simp only
  split <;> simp only <;> omega

theorem searchStep_bounds {σ : Type} (run : List String → Int → σ → Metrics × σ)
    (users : List String) (s : SearchState σ) (h : s.minUsers < s.maxUsers) :
    s.minUsers ≤ (searchStep run users s).minUsers ∧
    (searchStep run users s).minUsers ≤ (searchStep run users s).maxUsers ∧
    (searchStep run users s).maxUsers ≤ s.maxUsers := by
  have hb := testUsers_bounds s h
  rcases searchStep_cases run users s with ⟨_, hmin, hmax⟩ | ⟨_, hmin, hmax⟩ <;> omega

theorem searchLoop_of_lt {σ : Type} (run : List String → Int → σ → Metrics × σ)
    (users : List String) (s : SearchState σ) (h : s.minUsers < s.maxUsers) :
    searchLoop run users s
      = ⟨(searchLoop run users (searchStep run users s)).final,
         s :: (searchLoop run users (searchStep run users s)).visited⟩ := by
  rw [searchLoop]
  simp only [h, dite_true]

theorem searchLoop_of_not_lt {σ : Type} (run : List String → Int → σ → Metrics × σ)
    (users : List String) (s : SearchState σ) (h : ¬ s.minUsers < s.maxUsers) :
    searchLoop run users s = ⟨s, []⟩ := by
  rw [searchLoop]
  simp only [h, dite_false]

/-- Induction along the iterations of the search loop. -/
theorem searchLoop_induction {σ : Type} (run : List String → Int → σ → Metrics × σ)
    (users : List String) (P : SearchState σ → Prop)
    (hexit : ∀ s, ¬ s.minUsers < s.maxUsers → P s)
    (hiter : ∀ s, s.minUsers < s.maxUsers → P (searchStep run users s) → P s) :
    ∀ s, P s := by
  intro s
  generalize hn : (s.maxUsers - s.minUsers).toNat = n
  induction n using Nat.strong_induction_on generalizing s with
  | _ n ih =>
    by_cases h : s.minUsers < s.maxUsers
    · exact hiter s h (ih _ (hn ▸ searchStep_gap run users s h) _ rfl)
    · exact hexit s h

theorem searchLoop_final_of_threshold {σ : Type} (run : List String → Int → σ → Metrics × σ)
    (users : List String) (lo hi T : Int)
    (horacle : ∀ (c : Int) (w : σ), lo < c → c ≤ hi →
      (exceedsThresholds (run users c w).1 = false ↔ c ≤ T)) :
    ∀ s : SearchState σ, lo ≤ s.minUsers → s.maxUsers ≤ hi → s.minUsers ≤ T → T ≤ s.maxUsers →
      (searchLoop run users s).final.minUsers = T := by
  apply searchLoop_induction run users
  · intro s h _ _ h1 h2
    rw [searchLoop_of_not_lt run users s h]
    show s.minUsers = T
    omega
  · intro s h ih hlo hhi h1 h2
    rw [searchLoop_of_lt run users s h]
    show (searchLoop run users (searchStep run users s)).final.minUsers = T
    have hb := testUsers_bounds s h
    have ho := horacle (testUsers s) s.world (by omega) (by omega)
    rcases searchStep_cases run users s with ⟨he, hmin, hmax⟩ | ⟨he, hmin, hmax⟩
    · have hgt : ¬ testUsers s ≤ T := fun hle => by
        have := ho.mpr hle
        rw [he] at this
        exact Bool.noConfusion this
      apply ih <;> omega
    · have hle := ho.mp he
      apply ih <;> omega

theorem ceil_half_clog (n : Nat) (h : 2 ≤ n) (k : Nat) (hk : k ≤ (n + 1) / 2) :
    Nat.clog 2 k + 1 ≤ Nat.clog 2 n := by
  rw [Nat.clog_of_two_le (by norm_num) h]
  exact Nat.succ_le_succ (Nat.clog_mono_right 2 hk)

theorem searchLoop_iterations {σ : Type} (run : List String → Int → σ → Metrics × σ)
    (users : List String) :
    ∀ s : SearchState σ, s.minUsers ≤ s.maxUsers →
      (searchLoop run users s).visited.length
        ≤ Nat.clog 2 (s.maxUsers - s.minUsers + 1).toNat := by
  apply searchLoop_induction run users
  · intro s h _
    rw [searchLoop_of_not_lt run users s h]
    simp
  · intro s h ih _
    rw [searchLoop_of_lt run users s h]
    simp only [List.length_cons]
    have hb := testUsers_bounds s h
    have hd := tdiv_two_bounds (s.minUsers + s.maxUsers + 1)
    have hd2 : 2 * testUsers s = 2 * (s.minUsers + s.maxUsers + 1).tdiv 2 := rfl
    have hd3 : (s.minUsers + s.maxUsers + 1).tdiv 2 = (s.minUsers + s.maxUsers + 1) / 2 ∨
        s.minUsers + s.maxUsers + 1 < 0 := by
      rcases le_or_lt 0 (s.minUsers + s.maxUsers + 1) with h0 | h0
      · exact Or.inl (Int.tdiv_eq_ediv h0 (by norm_num))
      · exact Or.inr h0
    rcases searchStep_cases run users s with ⟨_, hmin, hmax⟩ | ⟨_, hmin, hmax⟩
    · have ih2 := ih (by omega)
      refine le_trans (Nat.succ_le_succ ih2) (ceil_half_clog _ (by omega) _ ?_)
      rw [hmin, hmax]
      omega
    · have ih2 := ih (by omega)
      refine le_trans (Nat.succ_le_succ ih2) (ceil_half_clog _ (by omega) _ ?_)
      rw [hmin, hmax]
      omega

theorem visited_bounds {σ : Type} (run : List String → Int → σ → Metrics × σ)
    (users : List String) :
    ∀ s : SearchState σ, ∀ t ∈ (searchLoop run users s).visited,
      s.minUsers ≤ t.minUsers ∧ t.minUsers < t.maxUsers ∧ t.maxUsers ≤ s.maxUsers := by
  apply searchLoop_induction run users
  · intro s h t ht
    rw [searchLoop_of_not_lt run users s h] at ht
    simp at ht
  · intro s h ih t ht
    rw [searchLoop_of_lt run users s h] at ht
    rcases List.mem_cons.mp ht with rfl | ht
    · exact ⟨le_refl _, h, le_refl _⟩
    · have := ih t ht
      have hb := testUsers_bounds s h
      rcases searchStep_cases run users s with ⟨_, hmin, hmax⟩ | ⟨_, hmin, hmax⟩ <;> omega

theorem final_bounds {σ : Type} (run : List String → Int → σ → Metrics × σ)
    (users : List String) :
    ∀ s : SearchState σ, s.minUsers ≤ s.maxUsers →
      s.minUsers ≤ (searchLoop run users s).final.minUsers ∧
      (searchLoop run users s).final.minUsers = (searchLoop run users s).final.maxUsers ∧
      (searchLoop run users s).final.maxUsers ≤ s.maxUsers := by
  apply searchLoop_induction run users
  · intro s h hle
    rw [searchLoop_of_not_lt run users s h]
    simp only
    omega
  · intro s h ih _
    rw [searchLoop_of_lt run users s h]
    simp only
    have hb := testUsers_bounds s h
    rcases searchStep_cases run users s with ⟨_, hmin, hmax⟩ | ⟨_, hmin, hmax⟩
    · have := ih (by omega)
      omega
    · have := ih (by omega)
      omega

theorem exceedsThresholds_eq_false_iff (m : Metrics) (hT : 0 < m.TotalRequests)
    (hT2 : m.TotalRequests ≤ 2 ^ 52) :
    exceedsThresholds m = false ↔
      ((m.FailedCalls : ℚ) / (m.TotalRequests : ℚ) ≤ 1 / 100 ∧
        m.AverageDuration ≤ 100000000) := by
  have h := errorRate_gt_iff m.FailedCalls m.TotalRequests hT hT2
  unfold exceedsThresholds
  simp only [Bool.or_eq_false_iff, decide_eq_false_iff_not, latencyThreshold, millisecond]
  constructor
  · rintro ⟨h1, h2⟩
    refine ⟨not_lt.mp (fun hlt => ?_), by omega⟩
    rw [h.mpr hlt] at h1
    exact Bool.noConfusion h1
  · rintro ⟨h1, h2⟩
    refine ⟨?_, by omega⟩
    cases hg : F64.gt (F64.div (F64.ofInt m.FailedCalls) (F64.ofInt m.TotalRequests))
      (F64.round errorThreshold)
    · rfl
    · exact absurd (h.mp hg) (not_lt.mpr h1)

theorem sutFailsAbove_passes (limit : Int) (users : List String) (c : Int) (w : Unit) :
    exceedsThresholds (sutFailsAbove limit users c w).1 = false ↔ c ≤ limit := by
  unfold sutFailsAbove
  by_cases h : c ≤ limit
  · simp only [h, if_true, iff_true]
    rw [exceedsThresholds_eq_false_iff _ (by norm_num [passingMetrics])
      (by norm_num [passingMetrics])]
    norm_num [passingMetrics]
  · simp only [h, if_false, iff_false]
    rw [exceedsThresholds_eq_false_iff _ (by norm_num [failingMetrics])
      (by norm_num [failingMetrics])]
    norm_num [failingMetrics]

theorem length_replicate_cast (n : Nat) (u : String) :
    ((List.replicate n u).length : Int) = n := by
  simp

/-- C1: with a monotone pass/fail oracle in place of `runLoadTest`, whose
threshold `T` satisfies `100 ≤ T ≤ len(users)` (a candidate size between 101
and `len(users)` passes exactly when it is at most `T`), `findMaxUsers` returns
`T`.  With `T = len(users)` this is the oracle under which every candidate
passes. -/
theorem findMaxUsers_returns_threshold {σ : Type}
    (run : List String → Int → σ → Metrics × σ) (users : List String) (w : σ) (T : Int)
    (hlo : 100 ≤ T) (hhi : T ≤ (users.length : Int))
    (horacle : ∀ (c : Int) (w' : σ), 100 < c → c ≤ (users.length : Int) →
      (exceedsThresholds (run users c w').1 = false ↔ c ≤ T)) :
    findMaxUsers run users w = T :=
  searchLoop_final_of_threshold run users 100 users.length T horacle (initialState users w)
    (le_refl _) (le_refl _) hlo hhi

/-- Witness of C1: 1000 users and a service failing above 500 give 500; a
service that never fails (limit at the population size) gives 1000. -/
theorem findMaxUsers_returns_threshold_witness :
    findMaxUsers (sutFailsAbove 500) (List.replicate 1000 "u") () = 500 ∧
    findMaxUsers (sutFailsAbove 1000) (List.replicate 1000 "u") () = 1000 :=
  ⟨findMaxUsers_returns_threshold (sutFailsAbove 500) (List.replicate 1000 "u") () 500
      (by norm_num) (by rw [length_replicate_cast]; norm_num)
      (fun c w' _ _ => sutFailsAbove_passes 500 _ c w'),
   findMaxUsers_returns_threshold (sutFailsAbove 1000) (List.replicate 1000 "u") () 1000
      (by norm_num) (by rw [length_replicate_cast]; norm_num)
      (fun c w' _ _ => sutFailsAbove_passes 1000 _ c w')⟩

/-- C2: for a population of at least 100 users the loop of `findMaxUsers`
ends, whatever the oracle answers (monotone or not), after at most
`ceil(log2(len(users) - 100 + 1))` iterations, each of which calls the run
once. -/
theorem findMaxUsers_iterations {σ : Type} (run : List String → Int → σ → Metrics × σ)
    (users : List String) (w : σ) (h : 100 ≤ users.length) :
    (searchLoop run users (initialState users w)).visited.length
      ≤ Nat.clog 2 (users.length - 100 + 1) := by
  have h1 := searchLoop_iterations run users (initialState users w)
    (by simp only [initialState]; omega)
  have h2 : ((initialState users w).maxUsers - (initialState users w).minUsers + 1).toNat
      = users.length - 100 + 1 := by
    simp only [initialState]
    omega
  rw [h2] at h1
  exact h1

/-- Witness of C2: 1000 users, at most `ceil(log2 901)` iterations. -/
theorem findMaxUsers_iterations_witness :
    100 ≤ (List.replicate 1000 "u").length ∧
    (searchLoop (sutFailsAbove 500) (List.replicate 1000 "u")
        (initialState (List.replicate 1000 "u") ())).visited.length
      ≤ Nat.clog 2 ((List.replicate 1000 "u").length - 100 + 1) :=
  ⟨by rw [List.length_replicate]; norm_num,
   findMaxUsers_iterations (sutFailsAbove 500) (List.replicate 1000 "u") ()
    (by rw [List.length_replicate]; norm_num)⟩

/-- C3, as stated, fails on a population of fewer than 100 users: for the
empty population the loop is entered with `minUsers = 100 > 0 = maxUsers` and
`findMaxUsers` returns 100, which is above `len(users)`. -/
theorem findMaxUsers_small_population :
    ¬ ((initialState ([] : List String) ()).minUsers
        ≤ (initialState ([] : List String) ()).maxUsers) ∧
    findMaxUsers (sutFailsAbove 500) [] () = 100 ∧
    ¬ (findMaxUsers (sutFailsAbove 500) [] () ≤ (([] : List String).length : Int)) := by
  have h : findMaxUsers (sutFailsAbove 500) [] () = 100 := by
    unfold findMaxUsers
    rw [searchLoop_of_not_lt _ _ _ (by simp [initialState])]
    rfl
  refine ⟨by simp [initialState], h, ?_⟩
  rw [h]
  simp

/-- C3, amended: for a population of at least 100 users and any oracle,
`minUsers ≤ maxUsers` holds when the loop is entered and after every
iteration, every tested candidate lies in `(minUsers, maxUsers]`, the loop
ends with `minUsers = maxUsers`, and the returned value lies between 100 and
`len(users)`. -/
theorem findMaxUsers_bounds {σ : Type} (run : List String → Int → σ → Metrics × σ)
    (users : List String) (w : σ) (h : 100 ≤ users.length) :
    (initialState users w).minUsers ≤ (initialState users w).maxUsers ∧
    (∀ s ∈ (searchLoop run users (initialState users w)).visited,
      s.minUsers < testUsers s ∧ testUsers s ≤ s.maxUsers ∧
      (searchStep run users s).minUsers ≤ (searchStep run users s).maxUsers) ∧
    (searchLoop run users (initialState users w)).final.minUsers
      = (searchLoop run users (initialState users w)).final.maxUsers ∧
    100 ≤ findMaxUsers run users w ∧
    findMaxUsers run users w ≤ (users.length : Int) := by
  have h0 : (initialState users w).minUsers ≤ (initialState users w).maxUsers := by
    simp only [initialState]
    omega
  have hf := final_bounds run users (initialState users w) h0
  refine ⟨h0, ?_, hf.2.1, hf.1, ?_⟩
  · intro s hs
    have hv := visited_bounds run users (initialState users w) s hs
    have hb := testUsers_bounds s hv.2.1
    exact ⟨hb.1, hb.2, (searchStep_bounds run users s hv.2.1).2.1⟩
  · have := hf.2.2
    unfold findMaxUsers
    have h3 : (initialState users w).maxUsers = (users.length : Int) := rfl
    omega

/-- Witness of C3 (amended) on 1000 users. -/
theorem findMaxUsers_bounds_witness :
    100 ≤ (List.replicate 1000 "u").length ∧
    100 ≤ findMaxUsers (sutFailsAbove 500) (List.replicate 1000 "u") () ∧
    findMaxUsers (sutFailsAbove 500) (List.replicate 1000 "u") ()
      ≤ ((List.replicate 1000 "u").length : Int) :=
  ⟨by rw [List.length_replicate]; norm_num,
   (findMaxUsers_bounds (sutFailsAbove 500) (List.replicate 1000 "u") ()
    (by rw [List.length_replicate]; norm_num)).2.2.2⟩

/-! ### `runLoadTest` -/

/-- The dispatch loop stops at the first tick count `N` with
`testDuration ≤ N * interval`. -/
theorem dispatchLoop_eq (interval N : Int) (hi : 0 < interval)
    (hlo : (N - 1) * interval < testDuration) (hhi : testDuration ≤ N * interval) :
    ∀ (fuel : Nat) (ticks : Int), ticks ≤ N → N - ticks ≤ fuel →
      dispatchLoop interval fuel ticks = N := by
  intro fuel
  induction fuel with
  | zero =>
    intro ticks h1 h2
    simp only [dispatchLoop]
    have : N - ticks ≤ 0 := by exact_mod_cast h2
    omega
  | succ fuel ih =>
    intro ticks h1 h2
    simp only [dispatchLoop]
    have h2z : N - ticks ≤ (fuel : Int) + 1 := by exact_mod_cast h2
    split_ifs with hlt
    · have hne : ticks ≠ N := by
        rintro rfl
        omega
      exact ih (ticks + 1) (by omega) (by omega)
    · rcases eq_or_lt_of_le h1 with h | h
      · exact h
      · exfalso
        have h3 : ticks * interval ≤ (N - 1) * interval :=
          mul_le_mul_of_nonneg_right (by omega) (le_of_lt hi)
        omega

theorem dispatchLoop_le (interval : Int) :
    ∀ (fuel : Nat) (ticks : Int), dispatchLoop interval fuel ticks ≤ ticks + fuel := by
  intro fuel
  induction fuel with
  | zero => intro ticks; simp [dispatchLoop]
  | succ fuel ih =>
    intro ticks
    simp only [dispatchLoop]
    split_ifs
    · have := ih (ticks + 1)
      push_cast
      omega
    · push_cast
      omega

theorem dispatchCount_eq (interval N : Int) (hi : 0 < interval)
    (hlo : (N - 1) * interval < testDuration) (hhi : testDuration ≤ N * interval) :
    dispatchCount interval = N := by
  have hN0 : 0 ≤ N := by
    by_contra hneg
    have : N * interval ≤ 0 := mul_nonpos_of_nonpos_of_nonneg (by omega) (le_of_lt hi)
    have hd : (0 : Int) < testDuration := by decide
    omega
  have hNle : N - 1 < testDuration := by
    rcases le_or_lt N 0 with h | h
    · have hd : (0 : Int) < testDuration := by decide
      omega
    · have : (N - 1) * 1 ≤ (N - 1) * interval :=
        mul_le_mul_of_nonneg_left (by omega) (by omega)
      omega
  unfold dispatchCount
  apply dispatchLoop_eq interval N hi hlo hhi _ 0 hN0
  have : ((testDuration.toNat : Nat) : Int) = testDuration := Int.toNat_of_nonneg (by decide)
  omega

theorem dispatchCount_le (interval : Int) : dispatchCount interval ≤ 5000000000 := by
  have h := dispatchLoop_le interval testDuration.toNat 0
  have h2 : ((testDuration.toNat : Nat) : Int) = 5000000000 := by decide
  unfold dispatchCount
  omega

/-- Across the rates `findMaxUsers` can ask for, the dispatch loop spawns one
worker more than the outcome channels hold unless the rate divides `10^9`. -/
theorem dispatchCount_of_rate (rps : Int) (h1 : 101 ≤ rps) (h2 : rps ≤ 10000) :
    dispatchCount (second.tdiv rps) = if second % rps = 0 then 5 * rps else 5 * rps + 1 := by
  have hq : second.tdiv rps = second / rps :=
    Int.tdiv_eq_ediv (by decide) (by omega)
  have hdecomp : rps * (second / rps) + second % rps = second := Int.ediv_add_emod second rps
  have hr0 : 0 ≤ second % rps := Int.emod_nonneg _ (by omega)
  have hr1 : second % rps < rps := Int.emod_lt_of_pos _ (by omega)
  have hsec : second = 1000000000 := rfl
  have hdur : testDuration = 5000000000 := by decide
  rw [hq]
  set q := second / rps with hqdef
  set r := second % rps with hrdef
  have hqbig : 100000 ≤ q := by
    by_contra hlt
    have h3 : rps * q ≤ 10000 * 99999 := by
      have hq0 : 0 ≤ q := Int.ediv_nonneg (by decide) (by omega)
      calc rps * q ≤ 10000 * q := mul_le_mul_of_nonneg_right h2 hq0
        _ ≤ 10000 * 99999 := mul_le_mul_of_nonneg_left (by omega) (by norm_num)
    omega
  split_ifs with hz
  · apply dispatchCount_eq q (5 * rps) (by omega)
    · have : (5 * rps - 1) * q = 5 * (rps * q) - q := by ring
      omega
    · have : 5 * rps * q = 5 * (rps * q) := by ring
      omega
  · apply dispatchCount_eq q (5 * rps + 1) (by omega)
    · have : (5 * rps + 1 - 1) * q = 5 * (rps * q) := by ring
      omega
    · have : (5 * rps + 1) * q = 5 * (rps * q) + q := by ring
      omega

/-- A service that answers every request in 5 ms. -/
theorem latencies_of_success (n : Nat) :
    (((List.range n).map (fun _ => (Except.ok 5000000 : Except String Int))).filterMap
      latencyOf).length = n := by
  induction n with
  | zero => simp
  | succ k ih =>
    rw [List.range_succ, List.map_append, List.filterMap_append, List.length_append, ih]
    simp [latencyOf]

theorem latencies_all_success (n : Nat) :
    ((List.range n).map (fun _ => (Except.ok 5000000 : Except String Int))).filterMap latencyOf
      = List.replicate n 5000000 := by
  induction n with
  | zero => simp
  | succ k ih =>
    rw [List.range_succ, List.map_append, List.filterMap_append, ih, List.replicate_succ']
    simp [latencyOf]

theorem failures_all_success (n : Nat) :
    ((List.range n).map (fun _ => (Except.ok 5000000 : Except String Int))).filterMap failureOf
      = [] := by
  induction n with
  | zero => simp
  | succ k ih =>
    rw [List.range_succ, List.map_append, List.filterMap_append, ih]
    simp [failureOf]

/-- The run returns the metrics of its outcomes when the set-up succeeds and
neither channel is offered more than it holds. -/
theorem runLoadTest_outcome_ok (memLimit : Int) (sut : Nat → Except String Int) (elapsed : Int)
    (users : List String) (targetRPS capacity interval : Int) (n : Nat)
    (hcap : wrap64 (targetRPS * testDurationSeconds) = capacity)
    (h1 : makechanOk memLimit 8 capacity = true) (h2 : makechanOk memLimit 16 capacity = true)
    (h3 : makechanOk memLimit 0 maxConcurrency = true) (h4 : targetRPS ≠ 0)
    (hint : second.tdiv targetRPS = interval) (h5 : 0 < interval)
    (hcount : dispatchCount interval = (n : Int)) (hu : users.length ≠ 0)
    (hr : ((((List.range n).map sut).filterMap latencyOf).length : Int) ≤ capacity)
    (hf : ((((List.range n).map sut).filterMap failureOf).length : Int) ≤ capacity) :
    (runLoadTest memLimit sut elapsed users targetRPS).outcome
      = .ok (calculateMetrics (((List.range n).map sut).filterMap latencyOf)
          (((List.range n).map sut).filterMap failureOf) elapsed) := by
  unfold runLoadTest
  simp only [hcap, hint, hcount, Int.toNat_ofNat, h1, h2, h3, Bool.not_true, Bool.false_eq_true,
    if_false, hu, h4]
  rw [if_neg (not_le.mpr h5), if_neg (by omega)]

/-- A run that returns reports at most one outcome per worker spawned. -/
theorem runLoadTest_total_le (memLimit : Int) (sut : Nat → Except String Int) (elapsed : Int)
    (users : List String) (targetRPS : Int) (m : Metrics)
    (h : (runLoadTest memLimit sut elapsed users targetRPS).outcome = .ok m) :
    m.TotalRequests ≤ 2 ^ 52 := by
  unfold runLoadTest at h
  simp only at h
  split_ifs at h
  all_goals try (simp only [reduceCtorEq] at h)
  simp only [Except.ok.injEq] at h
  rw [← h, calculateMetrics_total]
  have hc := dispatchCount_le (second.tdiv targetRPS)
  have h1 := List.length_filterMap_le latencyOf
    ((List.range (dispatchCount (second.tdiv targetRPS)).toNat).map sut)
  have h2 := List.length_filterMap_le failureOf
    ((List.range (dispatchCount (second.tdiv targetRPS)).toNat).map sut)
  rw [List.length_map, List.length_range] at h1 h2
  omega

/-- A run at 125 requests per second against a service answering in 5 ms:
625 workers, 625 latencies, and the metrics of those. -/
theorem runLoadTest_at_125 (users : List String) (hu : users.length ≠ 0) :
    (runLoadTest (2 ^ 47) (fun _ => .ok 5000000) 5000000000 users 125).outcome
      = .ok (calculateMetrics (List.replicate 625 5000000) [] 5000000000) := by
  have hcap : wrap64 (125 * testDurationSeconds) = 625 := by
    rw [testDurationSeconds_eq]
    decide
  have hcount : dispatchCount 8000000 = ((625 : Nat) : Int) := by
    have := dispatchCount_of_rate 125 (by norm_num) (by norm_num)
    rw [(by decide : second.tdiv 125 = 8000000)] at this
    rw [this]
    decide
  have h := runLoadTest_outcome_ok (2 ^ 47) (fun _ => .ok 5000000) 5000000000 users 125 625
    8000000 625 hcap (by decide) (by decide) (by decide) (by decide) (by decide) (by decide)
    hcount hu
    (by rw [latencies_all_success, List.length_replicate]; decide)
    (by rw [failures_all_success]; decide)
  rw [latencies_all_success, failures_all_success] at h
  exact h

/-- C4 fails on the code at `targetRPS = 101`, the lowest rate of the claimed
range: the ticker interval is `10^9 / 101 = 9900990` ns, the loop spawns 506
workers and each outcome channel holds `101 * 5 = 505` values; against a
service that answers every request the results channel is offered 506 values
and the run never returns. -/
theorem runLoadTest_overfills_channel :
    wrap64 (101 * testDurationSeconds) = 505 ∧
    (runLoadTest (2 ^ 47) (fun _ => .ok 5000000) 5000000000 ["user1"] 101).tickers
      = [9900990] ∧
    (runLoadTest (2 ^ 47) (fun _ => .ok 5000000) 5000000000 ["user1"] 101).spawned = 506 ∧
    (runLoadTest (2 ^ 47) (fun _ => .ok 5000000) 5000000000 ["user1"] 101).outcome
      = .error .deadlock := by
  have hcap : wrap64 (101 * testDurationSeconds) = 505 := by
    rw [testDurationSeconds_eq]
    decide
  have hint : second.tdiv 101 = 9900990 := by decide
  have hcount : dispatchCount 9900990 = 506 := by
    have := dispatchCount_of_rate 101 (by norm_num) (by norm_num)
    rw [hint] at this
    rw [this]
    decide
  have hlen := latencies_of_success 506
  have e1 : makechanOk (2 ^ 47) 8 505 = true := by decide
  have e2 : makechanOk (2 ^ 47) 16 505 = true := by decide
  have e3 : makechanOk (2 ^ 47) 0 maxConcurrency = true := by decide
  have hnat : (506 : Int).toNat = 506 := by decide
  have hrun : runLoadTest (2 ^ 47) (fun _ => .ok 5000000) 5000000000 ["user1"] 101
      = ⟨[9900990], 506, .error .deadlock⟩ := by
    unfold runLoadTest
    simp only [hcap, hint, hcount, hnat, hlen, e1, e2, e3, Bool.not_true, Bool.false_eq_true,
      if_false, List.length_singleton, one_ne_zero]
    rw [if_neg (by decide), if_neg (by decide), if_pos (Or.inl (by decide))]
  rw [hrun]
  exact ⟨hcap, rfl, rfl, rfl⟩

theorem runLoadTest_of_negative_capacity (memLimit : Int) (sut : Nat → Except String Int)
    (elapsed : Int) (users : List String) (targetRPS : Int)
    (h : makechanOk memLimit 8 (wrap64 (targetRPS * testDurationSeconds)) = false) :
    (runLoadTest memLimit sut elapsed users targetRPS).outcome
      = .error (.panic .makechanSizeOutOfRange) := by
  unfold runLoadTest
  simp only [h, Bool.not_false, if_true]

theorem runLoadTest_of_zero_rate (memLimit : Int) (sut : Nat → Except String Int)
    (elapsed : Int) (users : List String) (targetRPS : Int)
    (h1 : makechanOk memLimit 8 (wrap64 (targetRPS * testDurationSeconds)) = true)
    (h2 : makechanOk memLimit 16 (wrap64 (targetRPS * testDurationSeconds)) = true)
    (h3 : makechanOk memLimit 0 maxConcurrency = true) (h4 : targetRPS = 0) :
    (runLoadTest memLimit sut elapsed users targetRPS).outcome
      = .error (.panic .integerDivideByZero) := by
  unfold runLoadTest
  simp only [h1, h2, h3, Bool.not_true, Bool.false_eq_true, if_false]
  rw [if_pos h4]

theorem runLoadTest_of_bad_interval (memLimit : Int) (sut : Nat → Except String Int)
    (elapsed : Int) (users : List String) (targetRPS : Int)
    (h1 : makechanOk memLimit 8 (wrap64 (targetRPS * testDurationSeconds)) = true)
    (h2 : makechanOk memLimit 16 (wrap64 (targetRPS * testDurationSeconds)) = true)
    (h3 : makechanOk memLimit 0 maxConcurrency = true) (h4 : targetRPS ≠ 0)
    (h5 : second.tdiv targetRPS ≤ 0) :
    (runLoadTest memLimit sut elapsed users targetRPS).outcome
      = .error (.panic .nonPositiveTickerInterval) := by
  unfold runLoadTest
  simp only [h1, h2, h3, h4, h5, Bool.not_true, Bool.false_eq_true, if_false, if_true]

/-- C8, as stated, fails: `runLoadTest` raises no configuration error of its
own.  At rate 0 the call is stopped by the run-time panic of the integer
division `time.Second / time.Duration(targetRPS)`, at rate -1 by the panic of
`make` on the negative channel size. -/
theorem runLoadTest_zero_rate_panics :
    (runLoadTest (2 ^ 47) (fun _ => .ok 5000000) 5000000000 ["user1"] 0).outcome
      = .error (.panic .integerDivideByZero) ∧
    (runLoadTest (2 ^ 47) (fun _ => .ok 5000000) 5000000000 ["user1"] (-1)).outcome
      = .error (.panic .makechanSizeOutOfRange) := by
  have hcap0 : wrap64 (0 * testDurationSeconds) = 0 := by
    rw [testDurationSeconds_eq]
    decide
  have hcap1 : wrap64 (-1 * testDurationSeconds) = -5 := by
    rw [testDurationSeconds_eq]
    decide
  constructor
  · exact runLoadTest_of_zero_rate _ _ _ _ 0 (by rw [hcap0]; decide) (by rw [hcap0]; decide)
      (by decide) rfl
  · exact runLoadTest_of_negative_capacity _ _ _ _ (-1) (by rw [hcap1]; decide)

/-- A negative rate whose product with 5 wraps around to the capacity 1: both
channels are made, and it is `time.NewTicker` that panics, on the interval
`10^9 / targetRPS = 0`. -/
theorem runLoadTest_wrapped_capacity :
    wrap64 (-3689348814741910323 * testDurationSeconds) = 1 ∧
    (runLoadTest (2 ^ 47) (fun _ => .ok 5000000) 5000000000 ["user1"]
        (-3689348814741910323)).outcome
      = .error (.panic .nonPositiveTickerInterval) := by
  have hcap : wrap64 (-3689348814741910323 * testDurationSeconds) = 1 := by
    rw [testDurationSeconds_eq]
    decide
  exact ⟨hcap, runLoadTest_of_bad_interval _ _ _ _ (-3689348814741910323)
    (by rw [hcap]; decide) (by rw [hcap]; decide) (by decide) (by decide) (by decide)⟩

/-- C8, amended: for every `targetRPS ≤ 0`, whatever the memory limit, the
service and the population, `runLoadTest` is stopped while setting up by a
run-time panic (of `make` on a channel size, of the division by zero, or of
`time.NewTicker` on an interval that is not positive): no ticker is created,
no worker is spawned and no `Metrics` value is returned. -/
theorem runLoadTest_rejects_nonpositive_rate (memLimit : Int) (sut : Nat → Except String Int)
    (elapsed : Int) (users : List String) (targetRPS : Int) (h : targetRPS ≤ 0) :
    (runLoadTest memLimit sut elapsed users targetRPS).tickers = [] ∧
    (runLoadTest memLimit sut elapsed users targetRPS).spawned = 0 ∧
    ((runLoadTest memLimit sut elapsed users targetRPS).outcome
        = .error (.panic .makechanSizeOutOfRange) ∨
      (runLoadTest memLimit sut elapsed users targetRPS).outcome
        = .error (.panic .integerDivideByZero) ∨
      (runLoadTest memLimit sut elapsed users targetRPS).outcome
        = .error (.panic .nonPositiveTickerInterval)) ∧
    (∀ m : Metrics, (runLoadTest memLimit sut elapsed users targetRPS).outcome ≠ .ok m) := by
  have hint : targetRPS ≠ 0 → second.tdiv targetRPS ≤ 0 := by
    intro _
    have h1 : second.tdiv targetRPS = -(second.tdiv (-targetRPS)) := by
      rw [Int.tdiv_neg, neg_neg]
    have h2 : 0 ≤ second.tdiv (-targetRPS) := Int.tdiv_nonneg (by decide) (by omega)
    omega
  unfold runLoadTest
  simp only
  split_ifs with c1 c2 c3 c4 c5
  · exact ⟨rfl, rfl, Or.inl rfl, fun m hm => by cases hm⟩
  · exact ⟨rfl, rfl, Or.inl rfl, fun m hm => by cases hm⟩
  · exact ⟨rfl, rfl, Or.inl rfl, fun m hm => by cases hm⟩
  · exact ⟨rfl, rfl, Or.inr (Or.inl rfl), fun m hm => by cases hm⟩
  · exact ⟨rfl, rfl, Or.inr (Or.inr rfl), fun m hm => by cases hm⟩
  all_goals exact absurd (hint c4) c5

/-- Witness of C8 (amended) at the rates 0 and -1. -/
theorem runLoadTest_rejects_nonpositive_rate_witness :
    (0 : Int) ≤ 0 ∧ (-1 : Int) ≤ 0 ∧
    (runLoadTest (2 ^ 47) (fun _ => .ok 5000000) 5000000000 ["user1"] 0).spawned = 0 ∧
    (runLoadTest (2 ^ 47) (fun _ => .ok 5000000) 5000000000 ["user1"] (-1)).spawned = 0 :=
  ⟨by norm_num, by norm_num,
   (runLoadTest_rejects_nonpositive_rate (2 ^ 47) (fun _ => .ok 5000000) 5000000000 ["user1"] 0
      (by norm_num)).2.1,
   (runLoadTest_rejects_nonpositive_rate (2 ^ 47) (fun _ => .ok 5000000) 5000000000 ["user1"]
      (-1) (by norm_num)).2.1⟩

/-! ### One step of the search on the metrics of a run -/

theorem sutHugeCounts_passes (users : List String) (c : Int) (w : Unit) :
    exceedsThresholds (sutHugeCounts users c w).1 = false := by
  have h14 : F64.ofInt 100000000000000 = .finite 100000000000000 := by
    have := round_intCast 100000000000000 (by norm_num) (by norm_num)
    unfold F64.ofInt
    exact_mod_cast this
  have hq : (100000000000000 : ℚ) / 10000000000000000 = errorThreshold := by
    norm_num [errorThreshold]
  unfold exceedsThresholds sutHugeCounts
  simp only [round_tie_example, h14]
  rw [div_finite _ _ (by norm_num), hq, round_errorThreshold]
  simp [F64.gt, latencyThreshold, millisecond]

/-- Why the next property bounds `TotalRequests`: a stand-in reporting
`10^16 - 1` requests (more than any run of five seconds makes) of which
`10^14` failed has a failure rate above one hundredth, yet the step takes the
candidate as the new `minUsers`, because `float64(10^16 - 1)` is `1e16` and
the quotient rounds to the very `float64` that `0.01` denotes. -/
theorem searchStep_huge_counts :
    0 < (sutHugeCounts (List.replicate 101 "u")
          (testUsers (initialState (List.replicate 101 "u") ())) ()).1.TotalRequests ∧
    ¬ (((sutHugeCounts (List.replicate 101 "u")
          (testUsers (initialState (List.replicate 101 "u") ())) ()).1.FailedCalls : ℚ)
        / ((sutHugeCounts (List.replicate 101 "u")
          (testUsers (initialState (List.replicate 101 "u") ())) ()).1.TotalRequests : ℚ)
        ≤ 1 / 100) ∧
    (searchStep sutHugeCounts (List.replicate 101 "u")
        (initialState (List.replicate 101 "u") ())).minUsers
      = testUsers (initialState (List.replicate 101 "u") ()) := by
  refine ⟨by norm_num [sutHugeCounts], by norm_num [sutHugeCounts], ?_⟩
  rcases searchStep_cases sutHugeCounts (List.replicate 101 "u")
    (initialState (List.replicate 101 "u") ()) with ⟨he, _, _⟩ | ⟨_, hmin, _⟩
  · rw [sutHugeCounts_passes] at he
    exact Bool.noConfusion he
  · exact hmin

/-- The counts of a run stay far below `2^52`: what `calculateMetrics` is
given are the contents of two channels that `make` granted (8 bytes an
element for the results), so each holds at most `memLimit / 8` values. -/
theorem calculateMetrics_total_le_of_capacity (memLimit capacity : Int) (results : List Int)
    (errors : List String) (elapsed : Int) (hmem : memLimit ≤ 2 ^ 54)
    (hchan : makechanOk memLimit 8 capacity = true)
    (hr : (results.length : Int) ≤ capacity) (he : (errors.length : Int) ≤ capacity) :
    (calculateMetrics results errors elapsed).TotalRequests ≤ 2 ^ 52 := by
  simp only [makechanOk, Bool.and_eq_true, decide_eq_true_eq] at hchan
  rw [calculateMetrics_total]
  omega

/-- C10: in every iteration of `findMaxUsers` the candidate is
`ceil((minUsers + maxUsers) / 2)`; and for every `Metrics` value with
`TotalRequests > 0` the run hands back, the step sets `minUsers` to the
candidate exactly when `FailedCalls / TotalRequests ≤ 1/100` and
`AverageDuration ≤ 100ms` (leaving `maxUsers`), and otherwise sets `maxUsers`
to the candidate minus one (leaving `minUsers`).  The run is any function;
of its value only `TotalRequests ≤ 2^52` is used, which the counts of a run
of five seconds satisfy with a wide margin. -/
theorem findMaxUsers_step {σ : Type} (run : List String → Int → σ → Metrics × σ)
    (users : List String) (w : σ) (s : SearchState σ)
    (hs : s ∈ (searchLoop run users (initialState users w)).visited)
    (hT : 0 < (run users (testUsers s) s.world).1.TotalRequests)
    (hT2 : (run users (testUsers s) s.world).1.TotalRequests ≤ 2 ^ 52) :
    testUsers s = ⌈((s.minUsers + s.maxUsers : Int) : ℚ) / 2⌉ ∧
    ((searchStep run users s).minUsers = testUsers s
      ↔ withinBudget (run users (testUsers s) s.world).1) ∧
    (withinBudget (run users (testUsers s) s.world).1 →
      (searchStep run users s).minUsers = testUsers s ∧
      (searchStep run users s).maxUsers = s.maxUsers) ∧
    (¬ withinBudget (run users (testUsers s) s.world).1 →
      (searchStep run users s).minUsers = s.minUsers ∧
      (searchStep run users s).maxUsers = testUsers s - 1) := by
  have hv := visited_bounds run users (initialState users w) s hs
  have h100 : 100 ≤ s.minUsers := hv.1
  have hb := testUsers_bounds s hv.2.1
  refine ⟨testUsers_eq_ceil s (by omega), ?_⟩
  have hiff : exceedsThresholds (run users (testUsers s) s.world).1 = false
      ↔ withinBudget (run users (testUsers s) s.world).1 :=
    exceedsThresholds_eq_false_iff _ hT hT2
  rcases searchStep_cases run users s with ⟨he, hmin, hmax⟩ | ⟨he, hmin, hmax⟩
  · have hnot : ¬ withinBudget (run users (testUsers s) s.world).1 := by
      intro hc
      rw [hiff.mpr hc] at he
      exact Bool.noConfusion he
    exact ⟨iff_of_false (by omega) hnot, fun hc => absurd hc hnot, fun _ => ⟨hmin, hmax⟩⟩
  · have hc := hiff.mp he
    exact ⟨iff_of_true hmin hc, fun _ => ⟨hmin, hmax⟩, fun hn => absurd hc hn⟩

/-- Witness of C10: the first iteration on 101 users tests 101; against a
service that fails above 500 the run reports 100 requests without a failure
and a 5 ms average, and the step takes 101 as the new `minUsers`. -/
theorem findMaxUsers_step_witness :
    initialState (List.replicate 101 "u") ()
      ∈ (searchLoop (sutFailsAbove 500) (List.replicate 101 "u")
          (initialState (List.replicate 101 "u") ())).visited ∧
    0 < (sutFailsAbove 500 (List.replicate 101 "u")
          (testUsers (initialState (List.replicate 101 "u") ())) ()).1.TotalRequests ∧
    (sutFailsAbove 500 (List.replicate 101 "u")
          (testUsers (initialState (List.replicate 101 "u") ())) ()).1.TotalRequests ≤ 2 ^ 52 ∧
    testUsers (initialState (List.replicate 101 "u") ()) = 101 ∧
    (searchStep (sutFailsAbove 500) (List.replicate 101 "u")
        (initialState (List.replicate 101 "u") ())).minUsers = 101 ∧
    (searchStep (sutFailsAbove 500) (List.replicate 101 "u")
        (initialState (List.replicate 101 "u") ())).maxUsers = 101 := by
  have hmax : (initialState (List.replicate 101 "u") ()).maxUsers = 101 := by
    simp only [initialState, List.length_replicate]
    norm_num
  have hmin : (initialState (List.replicate 101 "u") ()).minUsers = 100 := rfl
  have hlt : (initialState (List.replicate 101 "u") ()).minUsers
      < (initialState (List.replicate 101 "u") ()).maxUsers := by
    rw [hmax, hmin]
    norm_num
  have htest : testUsers (initialState (List.replicate 101 "u") ()) = 101 := by
    unfold testUsers
    rw [hmax, hmin]
    decide
  have hmem : initialState (List.replicate 101 "u") ()
      ∈ (searchLoop (sutFailsAbove 500) (List.replicate 101 "u")
          (initialState (List.replicate 101 "u") ())).visited := by
    rw [searchLoop_of_lt _ _ _ hlt]
    exact List.mem_cons_self _ _
  have hm : (sutFailsAbove 500 (List.replicate 101 "u")
      (testUsers (initialState (List.replicate 101 "u") ()))
      (initialState (List.replicate 101 "u") ()).world).1 = passingMetrics := by
    rw [htest]
    simp only [sutFailsAbove]
    rw [if_pos (by norm_num)]
  have hT : 0 < (sutFailsAbove 500 (List.replicate 101 "u")
      (testUsers (initialState (List.replicate 101 "u") ()))
      (initialState (List.replicate 101 "u") ()).world).1.TotalRequests := by
    rw [hm]
    norm_num [passingMetrics]
  have hT2 : (sutFailsAbove 500 (List.replicate 101 "u")
      (testUsers (initialState (List.replicate 101 "u") ()))
      (initialState (List.replicate 101 "u") ()).world).1.TotalRequests ≤ 2 ^ 52 := by
    rw [hm]
    norm_num [passingMetrics]
  have hbudget : withinBudget (sutFailsAbove 500 (List.replicate 101 "u")
      (testUsers (initialState (List.replicate 101 "u") ()))
      (initialState (List.replicate 101 "u") ()).world).1 := by
    rw [hm]
    unfold withinBudget
    norm_num [passingMetrics]
  have key := findMaxUsers_step (sutFailsAbove 500) (List.replicate 101 "u") ()
    (initialState (List.replicate 101 "u") ()) hmem hT hT2
  have hstep := key.2.2.1 hbudget
  exact ⟨hmem, hT, hT2, htest, by rw [← htest]; exact hstep.1, by rw [← hmax]; exact hstep.2⟩

end LoadTester
